import Mathlib

/-!
Verification of the Elara proxy service (`packages/proxy-service/app.py`).

Strings are modelled as `List Char` (`Str`) and byte strings as `List Nat`
(`Bytes`).  Python library primitives that the service calls are embedded
from CPython 3.11 (`urllib.parse`, `str.strip`, `bytes.decode` with
`errors="ignore"`); the gzip/zlib/brotli codecs are external libraries and
are passed in as an abstract `Codecs` record of fallible functions, while
all control flow around them is embedded from the source.  Case mapping is
restricted to ASCII (the service only manipulates ASCII header names,
schemes and tags).
-/

set_option maxHeartbeats 1000000

set_option maxRecDepth 4000

abbrev Str := List Char

abbrev Bytes := List Nat

/-- Shorthand turning a Lean string literal into the `List Char` model. -/
def str (s : String) : Str := s.toList

/-- ASCII lower-casing of one character, as `str.lower` acts on ASCII. -/
def lowerChar (c : Char) : Char :=
  if 'A' ≤ c ∧ c ≤ 'Z' then Char.ofNat (c.toNat + 32) else c

/-- ASCII lower-casing of a string (`s.lower()` restricted to ASCII data). -/
def lowerStr (s : Str) : Str := s.map lowerChar

/-- The characters Python's `str.strip()` (and `re` `\s`) treat as space,
up to the Unicode space separators. -/
def isPySpace (c : Char) : Bool :=
  decide (c.toNat ∈ [9, 10, 11, 12, 13, 28, 29, 30, 31, 32, 0x85, 0xA0,
    0x1680, 0x2000, 0x2001, 0x2002, 0x2003, 0x2004, 0x2005, 0x2006, 0x2007,
    0x2008, 0x2009, 0x200A, 0x2028, 0x2029, 0x202F, 0x205F, 0x3000])

/-- Python `s.lstrip()`. -/
def pyLStrip (s : Str) : Str := s.dropWhile isPySpace

/-- Python `s.rstrip()`. -/
def pyRStrip (s : Str) : Str := (s.reverse.dropWhile isPySpace).reverse

/-- Python `s.strip()`. -/
def pyStrip (s : Str) : Str := pyRStrip (pyLStrip s)

/-- Python `s.startswith(pre)`. -/
def startsWithS (s pre : Str) : Bool := pre.isPrefixOf s

/-- Python `s.endswith(suf)`. -/
def endsWithS (s suf : Str) : Bool := suf.isSuffixOf s

/-- Python `pat in s` (substring test). -/
def containsS : Str → Str → Bool
  | [], pat => pat.isEmpty
  | c :: rest, pat => pat.isPrefixOf (c :: rest) || containsS rest pat

/-- Byte view of an ASCII string. -/
def strToBytes (s : Str) : Bytes := s.map Char.toNat

/-- Is `b` a UTF-8 continuation byte. -/
def isContByte (b : Nat) : Bool := 0x80 ≤ b && b ≤ 0xBF

/-- Worker for `utf8DecodeIgnore`; the fuel decreases by one per decoded or
skipped sequence while at least one byte is consumed, so fuel equal to the
byte count never runs out. -/
def utf8Go : Nat → Bytes → Str
  | 0, _ => []
  | _ + 1, [] => []
  | fuel + 1, b :: rest =>
    if b < 0x80 then Char.ofNat b :: utf8Go fuel rest
    else if 0xC2 ≤ b && b ≤ 0xDF then
      match rest with
      | [] => []
      | b2 :: rest2 =>
        if isContByte b2 then
          Char.ofNat ((b - 0xC0) * 64 + (b2 - 0x80)) :: utf8Go fuel rest2
        else utf8Go fuel rest
    else if 0xE0 ≤ b && b ≤ 0xEF then
      match rest with
      | [] => []
      | b2 :: rest2 =>
        let okB2 :=
          if b = 0xE0 then 0xA0 ≤ b2 && b2 ≤ 0xBF
          else if b = 0xED then 0x80 ≤ b2 && b2 ≤ 0x9F
          else isContByte b2
        if okB2 then
          match rest2 with
          | [] => []
          | b3 :: rest3 =>
            if isContByte b3 then
              Char.ofNat ((b - 0xE0) * 4096 + (b2 - 0x80) * 64 + (b3 - 0x80)) ::
                utf8Go fuel rest3
            else utf8Go fuel rest2
        else utf8Go fuel rest
    else if 0xF0 ≤ b && b ≤ 0xF4 then
      match rest with
      | [] => []
      | b2 :: rest2 =>
        let okB2 :=
          if b = 0xF0 then 0x90 ≤ b2 && b2 ≤ 0xBF
          else if b = 0xF4 then 0x80 ≤ b2 && b2 ≤ 0x8F
          else isContByte b2
        if okB2 then
          match rest2 with
          | [] => []
          | b3 :: rest3 =>
            if isContByte b3 then
              match rest3 with
              | [] => []
              | b4 :: rest4 =>
                if isContByte b4 then
                  Char.ofNat ((b - 0xF0) * 262144 + (b2 - 0x80) * 4096 +
                    (b3 - 0x80) * 64 + (b4 - 0x80)) :: utf8Go fuel rest4
                else utf8Go fuel rest3
            else utf8Go fuel rest2
        else utf8Go fuel rest
    else utf8Go fuel rest

/-- CPython's `bytes.decode("utf-8", errors="ignore")`: decode maximal valid
sequences, skipping an invalid start byte, or a valid prefix whose
continuation fails, per the kernel decoder used by the `ignore` handler. -/
def utf8DecodeIgnore (l : Bytes) : Str := utf8Go l.length l

/-! ## `decompress_content` (app.py lines 416-487) -/

/-- `sample.startswith(('<', '{', '[', '<!'))` from the already-decompressed
guard in `decompress_content`. -/
def sampleStartsTexty (sample : Str) : Bool :=
  startsWithS sample (str "<") || startsWithS sample (str "\x7b") ||
    startsWithS sample (str "[") || startsWithS sample (str "<!")

/-- The "content appears already decompressed" guard of `decompress_content`:
decode the first 100 bytes permissively, strip, and test for markup-like
text (app.py lines 433-441). -/
def textGuard (content : Bytes) : Bool :=
  if content.length > 0 then
    let sample := pyStrip (utf8DecodeIgnore (content.take 100))
    sampleStartsTexty sample || containsS (lowerStr sample) (str "html")
  else false

/-- The external decompression primitives (`gzip.decompress`,
`zlib.decompress`, `zlib.decompress(·, -zlib.MAX_WBITS)`,
`brotli.decompress`), abstract fallible byte transforms. -/
structure Codecs where
  gzipD : Bytes → Except Unit Bytes
  zlibD : Bytes → Except Unit Bytes
  zlibRawD : Bytes → Except Unit Bytes
  brotliD : Bytes → Except Unit Bytes

deriving instance DecidableEq for Except

/-- `decompress_content(content, encoding)` (app.py lines 416-487): empty
encoding and guard-passing content are returned as-is; otherwise dispatch on
a case-insensitive substring of the encoding, every codec failure degrading
to the original bytes. -/
def decompress_content (k : Codecs) (content : Bytes) (encoding : Str) : Bytes :=
  if encoding = [] then content
  else
    let el := lowerStr encoding
    if textGuard content then content
    else if containsS el (str "gzip") then
      match k.gzipD content with
      | .ok d => d
      | .error _ => content
    else if containsS el (str "deflate") then
      match k.zlibD content with
      | .ok d => d
      | .error _ =>
        match k.zlibRawD content with
        | .ok d => d
        | .error _ => content
    else if containsS el (str "br") then
      match k.brotliD content with
      | .ok d => d
      | .error _ => content
    else content

/-! ## `strip_security_headers` (app.py lines 490-522) -/

abbrev Headers := List (Str × Str)

/-- The block list of `strip_security_headers` (app.py lines 495-515). -/
def blocked_headers : List Str :=
  [str "x-frame-options", str "content-security-policy",
   str "content-security-policy-report-only", str "x-content-type-options",
   str "x-xss-protection", str "cross-origin-embedder-policy",
   str "cross-origin-opener-policy", str "cross-origin-resource-policy",
   str "set-cookie", str "set-cookie2", str "content-encoding",
   str "transfer-encoding", str "content-length",
   str "strict-transport-security", str "public-key-pins", str "expect-ct",
   str "referrer-policy", str "permissions-policy", str "feature-policy"]

/-- `strip_security_headers(headers)` (app.py lines 490-522): keep exactly the
entries whose lower-cased key is not in the block list, preserving them
verbatim. -/
def strip_security_headers (headers : Headers) : Headers :=
  headers.filter (fun kv => decide (lowerStr kv.fst ∉ blocked_headers))

/-! ## The `/proxy` and `/resource` content pipelines
(app.py lines 662-678 and 777-797) -/

def MAX_RESPONSE_SIZE : Nat := 50 * 1024 * 1024

/-- The shared decompression step of both endpoints: lower-case the
`Content-Encoding` header value and decompress only when it is non-empty
(app.py lines 667-671 and 781-785). -/
def proxyDecompressed (k : Codecs) (raw : Bytes) (contentEncoding : Str) : Bytes :=
  let ce := lowerStr contentEncoding
  if ce ≠ [] then decompress_content k raw ce else raw

/-- The `/proxy` endpoint's body handling after the upstream fetch:
decompress, then fail with the oversize error if the decompressed body
exceeds `MAX_RESPONSE_SIZE`, else hand the body to the decode/rewrite
stages (app.py lines 663-678). -/
def proxy_content_gate (k : Codecs) (raw : Bytes) (contentEncoding : Str) :
    Except Str Bytes :=
  let content := proxyDecompressed k raw contentEncoding
  if content.length > MAX_RESPONSE_SIZE then
    .error (str "Response too large. Maximum size is 50.0MB")
  else .ok content

/-- The `/resource` endpoint's response construction: decompress and return
the bytes with the upstream content type (default
`application/octet-stream`); no rewriting and no size check occur
(app.py lines 777-797). -/
def proxy_resource_response (k : Codecs) (raw : Bytes) (contentEncoding : Str)
    (contentType : Option Str) : Bytes × Str :=
  let content := proxyDecompressed k raw contentEncoding
  (content, contentType.getD (str "application/octet-stream"))

/-! ## Concrete values used by witnesses and counterexamples -/

/-- Codecs all of whose transforms fail. -/
def failCodecs : Codecs :=
  ⟨fun _ => .error (), fun _ => .error (), fun _ => .error (), fun _ => .error ()⟩

/-- A valid gzip stream (stored-block encoding, CRC 0x1879f8e5) whose
decompressed payload is the four ASCII bytes of "html". -/
def gzHtmlBytes : Bytes :=
  [0x1f, 0x8b, 0x08, 0x00, 0x00, 0x00, 0x00, 0x00, 0x00, 0xff,
   0x01, 0x04, 0x00, 0xfb, 0xff, 0x68, 0x74, 0x6d, 0x6c,
   0xe5, 0xf8, 0x79, 0x18, 0x04, 0x00, 0x00, 0x00]

/-- The payload of `gzHtmlBytes`. -/
def htmlBytes : Bytes := strToBytes (str "html")

/-- Codecs behaving like gzip on `gzHtmlBytes` and failing elsewhere. -/
def gzHtmlCodecs : Codecs :=
  ⟨fun s => if s = gzHtmlBytes then .ok htmlBytes else .error (),
   fun _ => .error (), fun _ => .error (), fun _ => .error ()⟩

/-- Codecs behaving like a gzip decoder on the three-byte stream prefix
`1f 8b 08` (not text-like) and failing elsewhere. -/
def gz3Codecs : Codecs :=
  ⟨fun s => if s = [0x1f, 0x8b, 0x08] then .ok [104] else .error (),
   fun _ => .error (), fun _ => .error (), fun _ => .error ()⟩

/-- A sample header mapping with one blocked and one benign entry. -/
def sampleHeaders : Headers :=
  [(str "X-Frame-Options", str "DENY"), (str "X-Custom", str "v")]

/-! ## String splitting helpers (Python `str` methods) -/

/-- Split at the first occurrence of `c`: Python `s.split(c, 1)` when `c`
occurs, `none` otherwise. -/
def splitFirst (c : Char) : Str → Option (Str × Str)
  | [] => none
  | a :: rest =>
    if a = c then some ([], rest)
    else (splitFirst c rest).map (fun p => (a :: p.1, p.2))

/-- Python `s.partition(c)`: (before, found?, after). -/
def partS (c : Char) (s : Str) : Str × Bool × Str :=
  match splitFirst c s with
  | some (b, a) => (b, true, a)
  | none => (s, false, [])

/-- Python `s.rpartition(c)`: split at the last occurrence; when `c` is
absent the result is `("", "", s)`. -/
def rpartS (c : Char) (s : Str) : Str × Bool × Str :=
  match splitFirst c s.reverse with
  | some (b, a) => (a.reverse, true, b.reverse)
  | none => ([], false, s)

/-- Python `s.split(c)` (always at least one group). -/
def splitOnC (c : Char) : Str → List Str
  | [] => [[]]
  | a :: rest =>
    match splitOnC c rest with
    | [] => [[]]
    | g :: gs => if a = c then [] :: g :: gs else (a :: g) :: gs

/-- Python `c.join(groups)`. -/
def joinC (c : Char) : List Str → Str
  | [] => []
  | [g] => g
  | g :: gs => g ++ c :: joinC c gs

/-! ## IP address literals (CPython `ipaddress`) -/

def isHexDigitC (c : Char) : Bool :=
  c.isDigit || ('a' ≤ c && c ≤ 'f') || ('A' ≤ c && c ≤ 'F')

def hexVal (c : Char) : Nat :=
  if c.isDigit then c.toNat - 48
  else if 'a' ≤ c then c.toNat - 87
  else c.toNat - 55

/-- One dotted-quad octet per `IPv4Address._parse_octet`: 1-3 ASCII digits,
no leading zero, value at most 255. -/
def parseOctet (g : Str) : Option Nat :=
  if g ≠ [] ∧ g.length ≤ 3 ∧ g.all Char.isDigit ∧
      (g.length = 1 ∨ g.head? ≠ some '0') then
    let v := g.foldl (fun n c => n * 10 + (c.toNat - 48)) 0
    if v ≤ 255 then some v else none
  else none

/-- `IPv4Address` parsing of a dotted-quad literal, as a 32-bit value. -/
def parseIPv4 (s : Str) : Option Nat :=
  match splitOnC '.' s with
  | [a, b, c, d] => do
    let va ← parseOctet a
    let vb ← parseOctet b
    let vc ← parseOctet c
    let vd ← parseOctet d
    pure (va * 16777216 + vb * 65536 + vc * 256 + vd)
  | _ => none

/-- One 16-bit IPv6 group: 1-4 hex digits. -/
def parseHexGroup (g : Str) : Option Nat :=
  if g ≠ [] ∧ g.length ≤ 4 ∧ g.all isHexDigitC then
    some (g.foldl (fun n c => n * 16 + hexVal c) 0)
  else none

/-- Find the first `::` and split around it. -/
def findColonColon : Str → Option (Str × Str)
  | [] => none
  | [_] => none
  | c1 :: c2 :: rest =>
    if c1 = ':' ∧ c2 = ':' then some ([], rest)
    else (findColonColon (c2 :: rest)).map (fun p => (c1 :: p.1, p.2))

/-- The 16-bit groups of one `:`-separated run, the last group optionally an
embedded dotted-quad when `v4ok` (contributing two groups). -/
def ipv6Groups (t : Str) (v4ok : Bool) : Option (List Nat) :=
  if t = [] then some []
  else
    let ps := splitOnC ':' t
    do
      let initVals ← ps.dropLast.mapM parseHexGroup
      let lp := ps.getLastD []
      if v4ok ∧ lp.contains '.' then
        match parseIPv4 lp with
        | some v => some (initVals ++ [v / 65536, v % 65536])
        | none => none
      else do
        let lv ← parseHexGroup lp
        some (initVals ++ [lv])

def ipv6ToNat (gs : List Nat) : Nat := gs.foldl (fun n g => n * 65536 + g) 0

/-- `IPv6Address` parsing (without zone), as a 128-bit value: at most one
`::` compressing at least one zero group, eight groups total. -/
def parseIPv6 (s : Str) : Option Nat :=
  match findColonColon s with
  | some (hi, lo) =>
    if containsS lo (str "::") then none
    else do
      let ghi ← ipv6Groups hi false
      let glo ← ipv6Groups lo true
      if ghi.length + glo.length ≤ 7 then
        pure (ipv6ToNat (ghi ++ List.replicate (8 - ghi.length - glo.length) 0 ++ glo))
      else none
  | none => do
    let gs ← ipv6Groups s true
    if gs.length = 8 then pure (ipv6ToNat gs) else none

/-! ## CPython 3.11 `urllib.parse` -/

structure UrlSplit where
  scheme : Str
  netloc : Str
  path : Str
  query : Str
  fragment : Str
deriving DecidableEq

structure UrlParse where
  scheme : Str
  netloc : Str
  path : Str
  params : Str
  query : Str
  fragment : Str
deriving DecidableEq

def uses_relative : List Str :=
  [str "", str "ftp", str "http", str "gopher", str "nntp", str "imap",
   str "wais", str "file", str "https", str "shttp", str "mms",
   str "prospero", str "rtsp", str "rtsps", str "rtspu", str "sftp",
   str "svn", str "svn+ssh", str "ws", str "wss"]

def uses_netloc : List Str :=
  [str "", str "ftp", str "http", str "gopher", str "nntp", str "telnet",
   str "imap", str "wais", str "file", str "mms", str "https", str "shttp",
   str "snews", str "prospero", str "rtsp", str "rtsps", str "rtspu",
   str "rsync", str "svn", str "svn+ssh", str "sftp", str "nfs", str "git",
   str "git+ssh", str "ws", str "wss"]

def uses_params : List Str :=
  [str "", str "ftp", str "hdl", str "prospero", str "http", str "imap",
   str "https", str "shttp", str "rtsp", str "rtsps", str "rtspu", str "sip",
   str "sips", str "mms", str "sftp", str "tel"]

def isAsciiAlphaC (c : Char) : Bool :=
  ('a' ≤ c && c ≤ 'z') || ('A' ≤ c && c ≤ 'Z')

def isSchemeChar (c : Char) : Bool :=
  isAsciiAlphaC c || c.isDigit || c = '+' || c = '-' || c = '.'

def isC0OrSpace (c : Char) : Bool := c.toNat ≤ 0x20

def isUnsafeUrlChar (c : Char) : Bool := c = '\t' || c = '\r' || c = '\n'

/-- `s.strip(_WHATWG_C0_CONTROL_OR_SPACE)`. -/
def c0Strip (s : Str) : Str :=
  ((s.dropWhile isC0OrSpace).reverse.dropWhile isC0OrSpace).reverse

def headAlpha (s : Str) : Bool :=
  match s.head? with
  | some c => isAsciiAlphaC c
  | none => false

/-- The scheme-extraction step of `urlsplit` (parse.py 485-492): take
everything before the first `:` as the scheme when it is a well-formed
scheme token, else fall back to the default scheme. -/
def schemeSplit (dscheme url : Str) : Str × Str :=
  match splitFirst ':' url with
  | some (before, after) =>
    if !before.isEmpty && headAlpha before && before.all isSchemeChar then
      (lowerStr before, after)
    else (dscheme, url)
  | none => (dscheme, url)

/-- `_check_bracketed_host` (parse.py 441-450): a bracketed host is an
IPvFuture literal `v<hex>+.<rest>` or an IPv6 address with an optional
non-empty `%zone`. -/
def checkBracketedHost (h : Str) : Bool :=
  if startsWithS h (str "v") then
    match splitFirst '.' (h.drop 1) with
    | some (hex, rest) => !hex.isEmpty && hex.all isHexDigitC && !rest.isEmpty
    | none => false
  else
    let (addr, hasZone, zone) := partS '%' h
    match parseIPv6 addr with
    | some _ => if hasZone then !zone.isEmpty && zone.all (· ≠ '%') else true
    | none => false

def notNetlocDelim (c : Char) : Bool := !(c = '/' || c = '?' || c = '#')

/-- The fragment and query splitting tail of `urlsplit` (parse.py 500-505). -/
def urlsplitFragQuery (scheme netloc url : Str) : UrlSplit :=
  let pf :=
    match splitFirst '#' url with
    | some (b, a) => (b, a)
    | none => (url, ([] : Str))
  let pq :=
    match splitFirst '?' pf.1 with
    | some (b, a) => (b, a)
    | none => (pf.1, ([] : Str))
  ⟨scheme, netloc, pq.1, pq.2, pf.2⟩

/-- The netloc, fragment and query steps of `urlsplit` after the scheme was
extracted (parse.py 493-507); the scheme is passed through unchanged. -/
def pyUrlsplitCore (scheme url : Str) : Except Str UrlSplit :=
  if url.take 2 = str "//" then
    let after2 := url.drop 2
    let netloc := after2.takeWhile notNetlocDelim
    let rest := after2.dropWhile notNetlocDelim
    if (netloc.contains '[' && !netloc.contains ']') ||
        (netloc.contains ']' && !netloc.contains '[') then
      .error (str "Invalid IPv6 URL")
    else if netloc.contains '[' && netloc.contains ']' then
      if checkBracketedHost ((partS ']' (partS '[' netloc).2.2).1) then
        .ok (urlsplitFragQuery scheme netloc rest)
      else .error (str "invalid bracketed host")
    else .ok (urlsplitFragQuery scheme netloc rest)
  else .ok (urlsplitFragQuery scheme [] url)

/-- `urlsplit(url, scheme)` (parse.py 453-507, `allow_fragments=True`):
WHATWG stripping, scheme extraction, then the netloc/fragment/query steps. -/
def pyUrlsplit (url0 default_scheme : Str) : Except Str UrlSplit :=
  let url := (url0.dropWhile isC0OrSpace).filter (fun c => !isUnsafeUrlChar c)
  let dscheme := (c0Strip default_scheme).filter (fun c => !isUnsafeUrlChar c)
  let (scheme, url) := schemeSplit dscheme url
  pyUrlsplitCore scheme url

/-- `_splitparams` (parse.py 404-411), reached only when `;` occurs in the
path: split at the first `;` of the last path segment. -/
def pySplitparams (url : Str) : Str × Str :=
  if url.contains '/' then
    let (beforeSlash, _, afterSlash) := rpartS '/' url
    match splitFirst ';' afterSlash with
    | some (b, a) => (beforeSlash ++ '/' :: b, a)
    | none => (url, [])
  else
    match splitFirst ';' url with
    | some (b, a) => (b, a)
    | none => (url, [])

/-- `urlparse(url, scheme)` (parse.py 374-402). -/
def pyUrlparse (url default_scheme : Str) : Except Str UrlParse :=
  match pyUrlsplit url default_scheme with
  | .error e => .error e
  | .ok sp =>
    if decide (sp.scheme ∈ uses_params) && sp.path.contains ';' then
      .ok ⟨sp.scheme, sp.netloc, (pySplitparams sp.path).1,
        (pySplitparams sp.path).2, sp.query, sp.fragment⟩
    else .ok ⟨sp.scheme, sp.netloc, sp.path, [], sp.query, sp.fragment⟩

/-- `_hostinfo` (parse.py 206-218): strip userinfo, then split host and port
around brackets or the first colon. -/
def pyHostinfo (netloc : Str) : Str × Option Str :=
  let hostinfo := (rpartS '@' netloc).2.2
  let (_, haveBr, bracketed) := partS '[' hostinfo
  if haveBr then
    let (hostname, _, port0) := partS ']' bracketed
    let port := (partS ':' port0).2.2
    (hostname, if port = [] then none else some port)
  else
    let (hostname, _, port) := partS ':' hostinfo
    (hostname, if port = [] then none else some port)

/-- The `hostname` property (parse.py 165-173): lower-case up to any `%zone`. -/
def pyHostname (netloc : Str) : Option Str :=
  let h := (pyHostinfo netloc).1
  if h = [] then none
  else
    let (base, pc, zone) := partS '%' h
    some (lowerStr base ++ (if pc then '%' :: zone else []))

/-- The `port` property (parse.py 176-185): ASCII digits only, range
0-65535, raising otherwise. -/
def pyPort (netloc : Str) : Except Str (Option Nat) :=
  match (pyHostinfo netloc).2 with
  | none => .ok none
  | some p =>
    if !p.isEmpty && p.all Char.isDigit then
      let v := p.foldl (fun n c => n * 10 + (c.toNat - 48)) 0
      if v ≤ 65535 then .ok (some v)
      else .error (str "Port out of range 0-65535")
    else .error (str "Port could not be cast to integer value")

/-- `urlunsplit` (parse.py 520-537). -/
def pyUrlunsplit (scheme netloc path query fragment : Str) : Str :=
  let url := path
  let url :=
    if netloc ≠ [] ∨ (scheme ≠ [] ∧ scheme ∈ uses_netloc ∧ url.take 2 ≠ str "//") then
      str "//" ++ netloc ++ (if url ≠ [] ∧ url.take 1 ≠ str "/" then '/' :: url else url)
    else url
  let url := if scheme ≠ [] then scheme ++ ':' :: url else url
  let url := if query ≠ [] then url ++ '?' :: query else url
  if fragment ≠ [] then url ++ '#' :: fragment else url

/-- `urlunparse` (parse.py 509-518). -/
def pyUrlunparse (p : UrlParse) : Str :=
  pyUrlunsplit p.scheme p.netloc
    (if p.params ≠ [] then p.path ++ ';' :: p.params else p.path)
    p.query p.fragment

/-- `segments[1:-1] = filter(None, segments[1:-1])` from `urljoin`. -/
def filterMiddle (l : List Str) : List Str :=
  match l with
  | [] => []
  | [x] => [x]
  | x :: rest =>
    x :: (rest.dropLast.filter (fun g => !g.isEmpty)) ++ [rest.getLastD []]

/-- `urljoin(base, url)` (parse.py 539-591). -/
def pyUrljoin (base url : Str) : Except Str Str :=
  if base = [] then .ok url
  else if url = [] then .ok base
  else do
    let b ← pyUrlparse base []
    let u ← pyUrlparse url b.scheme
    if u.scheme ≠ b.scheme ∨ u.scheme ∉ uses_relative then .ok url
    else if decide (u.scheme ∈ uses_netloc) ∧ u.netloc ≠ [] then
      .ok (pyUrlunparse u)
    else
      let netloc := if decide (u.scheme ∈ uses_netloc) then b.netloc else u.netloc
      if u.path = [] ∧ u.params = [] then
        let query := if u.query = [] then b.query else u.query
        .ok (pyUrlunparse ⟨u.scheme, netloc, b.path, b.params, query, u.fragment⟩)
      else
        let base_parts := splitOnC '/' b.path
        let base_parts :=
          if base_parts.getLast? ≠ some ([] : Str) then base_parts.dropLast
          else base_parts
        let segments :=
          if u.path.take 1 = str "/" then splitOnC '/' u.path
          else filterMiddle (base_parts ++ splitOnC '/' u.path)
        let resolved := segments.foldl (fun acc seg =>
          if seg = str ".." then acc.dropLast
          else if seg = str "." then acc
          else acc ++ [seg]) ([] : List Str)
        let resolved :=
          if segments.getLast? = some (str ".") ∨ segments.getLast? = some (str "..") then
            resolved ++ [([] : Str)]
          else resolved
        let joined := joinC '/' resolved
        .ok (pyUrlunparse ⟨u.scheme, netloc,
          (if joined = [] then str "/" else joined), u.params, u.query,
          u.fragment⟩)

/-! ## `validate_url` and `normalize_url` (app.py lines 163-248) -/

def BLOCKED_DOMAINS : List Str :=
  [str ".local", str ".internal", str ".corp", str ".localhost"]

/-- Membership of a 32-bit IPv4 value in `BLOCKED_IP_RANGES` (app.py
lines 122-129): 127.0.0.0/8, 10.0.0.0/8, 172.16.0.0/12, 192.168.0.0/16,
169.254.0.0/16, 0.0.0.0/8. -/
def inBlockedRanges (ip : Nat) : Bool :=
  ip / 16777216 = 127 || ip / 16777216 = 10 || ip / 1048576 = 2753 ||
    ip / 65536 = 49320 || ip / 65536 = 43518 || ip / 16777216 = 0

/-- The anchored regex `^\d{1,3}\.\d{1,3}\.\d{1,3}\.\d{1,3}$` of
`validate_url` (app.py line 235). -/
def re_ipv4 (h : Str) : Bool :=
  let ps := splitOnC '.' h
  ps.length = 4 && ps.all (fun g => !g.isEmpty && g.length ≤ 3 && g.all Char.isDigit)

/-- `validate_url(url)` (app.py lines 211-248). -/
def validate_url (url : Str) : Bool × Str :=
  match pyUrlparse url [] with
  | .error e => (false, str "Invalid URL format: " ++ e)
  | .ok p =>
    if ¬ (p.scheme = str "http" ∨ p.scheme = str "https") then
      (false, str "Invalid protocol: " ++ p.scheme)
    else
      let hostname :=
        match pyHostname p.netloc with
        | some h => h
        | none => p.netloc
      if hostname = [] then (false, str "Invalid URL: No hostname")
      else
        let hl := lowerStr hostname
        match BLOCKED_DOMAINS.find? (fun b => endsWithS hl b) with
        | some b => (false, str "Access to " ++ b ++ str " domains is not allowed")
        | none =>
          if hl = str "localhost" ∨ hl = str "0.0.0.0" then
            (false, str "Access to localhost is not allowed")
          else if re_ipv4 hostname then
            match parseIPv4 hostname with
            | some ip =>
              if inBlockedRanges ip then
                (false, str "Access to private/internal IP addresses is not allowed")
              else (true, [])
            | none => (true, [])
          else (true, [])

/-- The hostname `validate_url` works with: `urlparse(url).hostname or
netloc`, `none` when parsing raises. -/
def hostnameOfUrl (url : Str) : Option Str :=
  match pyUrlparse url [] with
  | .error _ => none
  | .ok p =>
    some (match pyHostname p.netloc with
      | some h => h
      | none => p.netloc)

def common_domains : List Str :=
  [str "google", str "microsoft", str "facebook", str "amazon", str "apple"]

/-- The component computation of `normalize_url(url)` (app.py lines
163-208), before `urlunparse` reassembles them. -/
def normalizeParts (url0 : Str) : Except Str UrlParse :=
  let url := pyStrip url0
  let url :=
    if !(startsWithS url (str "http://") || startsWithS url (str "https://")) then
      str "https://" ++ url
    else url
  match pyUrlparse url [] with
  | .error e => .error e
  | .ok p =>
    let hostname :=
      match pyHostname p.netloc with
      | some h => h
      | none => p.netloc
    let hostname := if hostname = [] then (splitOnC ':' p.netloc).headD [] else hostname
    let hostname :=
      if !hostname.isEmpty && hostname.contains '.' then
        let parts := splitOnC '.' hostname
        if parts.length = 2 && !startsWithS hostname (str "www.") then
          if decide (lowerStr (parts.headD []) ∈ common_domains) then
            str "www." ++ hostname
          else hostname
        else hostname
      else hostname
    let scheme := if p.scheme ≠ str "http" then str "https" else str "http"
    match pyPort p.netloc with
    | .error e => .error e
    | .ok prt =>
      let netloc :=
        match prt with
        | some pv => if pv ≠ 0 then hostname ++ ':' :: Nat.toDigits 10 pv else hostname
        | none => hostname
      .ok ⟨scheme, netloc, (if p.path = [] then str "/" else p.path), p.params,
        p.query, p.fragment⟩

/-- `normalize_url(url)` (app.py lines 163-208). -/
def normalize_url (url : Str) : Except Str Str :=
  (normalizeParts url).map pyUrlunparse

/-- The claim's notion of a blocked IP literal, following the spec's words:
an IPv4 literal in the loopback, RFC1918, link-local or 0.0.0.0/8 ranges, or
an IPv6 literal that is loopback (::1) or link-local (fe80::/10). -/
def specBlockedIpLiteral (h : Str) : Bool :=
  match parseIPv4 h with
  | some ip => inBlockedRanges ip
  | none =>
    match parseIPv6 h with
    | some v => v = 1 || v / 2 ^ 118 = 0x3FA
    | none => false

/-- A hostname string that is a blocked IPv4 dotted-quad literal. -/
def blockedIPv4Literal (h : Str) : Bool :=
  match parseIPv4 h with
  | some ip => inBlockedRanges ip
  | none => false

/-! ## `rewrite_html_content` (app.py lines 261-378) -/

/-- The injected postMessage bridge script (app.py lines 271-311), verbatim
(braces written as escapes). -/
def postmessage_script : Str := str "\n<script>\n(function() \x7b\n    // PostMessage bridge for navigation\n    window.addEventListener('click', function(e) \x7b\n        var target = e.target;\n        var link = target.closest('a');\n        if (link && link.href) \x7b\n            e.preventDefault();\n            window.parent.postMessage(\x7b\n                type: 'navigate',\n                url: link.href\n            \x7d, '*');\n        \x7d\n    \x7d, true);\n\n    // Intercept form submissions\n    window.addEventListener('submit', function(e) \x7b\n        var form = e.target;\n        if (form.action) \x7b\n            e.preventDefault();\n            var formData = new FormData(form);\n            var method = (form.method || 'GET').toUpperCase();\n            window.parent.postMessage(\x7b\n                type: 'form_submit',\n                url: form.action,\n                method: method,\n                data: Object.fromEntries(formData)\n            \x7d, '*');\n        \x7d\n    \x7d, true);\n\n    // Log JavaScript errors\n    window.addEventListener('error', function(e) \x7b\n        console.error('Page error:', e.message);\n    \x7d);\n\n    console.log('Elara Proxy Bridge initialized');\n\x7d)();\n</script>\n"

/-- Case-insensitively strip `pre` from the front of `l`, returning the rest. -/
def stripPrefixCI (pre : Str) (l : Str) : Option Str :=
  match pre, l with
  | [], l => some l
  | _ :: _, [] => none
  | p :: ps, c :: cs => if lowerChar c = lowerChar p then stripPrefixCI ps cs else none

/-- Match the regex `<tag[^>]*>` (IGNORECASE) at the head of `l`, returning
the match length. -/
def tagMatchLen (tag : Str) (l : Str) : Option Nat :=
  match l with
  | [] => none
  | c :: cs =>
    if c = '<' then
      match stripPrefixCI tag cs with
      | none => none
      | some rest =>
        let mid := rest.takeWhile (fun x => x ≠ '>')
        match rest.dropWhile (fun x => x ≠ '>') with
        | [] => none
        | _ :: _ => some (1 + tag.length + mid.length + 1)
    else none

/-- Worker for `subTagIns`: `re.sub(r'(<tag[^>]*>)', r'\1' + ins, l)` as a
left-to-right scan.  A positive first argument means that many characters of
a previously recognised match are still to be copied before `ins` is
emitted; scanning resumes after the match, as `re.sub` does. -/
def goIns (tag ins : Str) : Nat → Str → Str
  | 0, [] => []
  | _ + 1, [] => ins
  | p + 1, c :: cs => c :: (if p = 0 then ins ++ goIns tag ins 0 cs else goIns tag ins p cs)
  | 0, c :: cs =>
    match tagMatchLen tag (c :: cs) with
    | some n => if n ≤ 1 then c :: (ins ++ goIns tag ins 0 cs) else c :: goIns tag ins (n - 1) cs
    | none => c :: goIns tag ins 0 cs

/-- `re.sub(r'(<tag[^>]*>)', r'\1' + ins, html, flags=re.IGNORECASE)`:
insert `ins` after every occurrence of an opening `tag` element. -/
def subTagIns (tag ins : Str) (l : Str) : Str := goIns tag ins 0 l

/-- The bridge-script injection step (app.py lines 313-328). -/
def scriptStep (html : Str) : Str :=
  if containsS (lowerStr html) (str "<head>") then
    subTagIns (str "head") postmessage_script html
  else if containsS (lowerStr html) (str "<html>") then
    subTagIns (str "html") (str "<head>" ++ postmessage_script ++ str "</head>") html
  else html

/-- The base-tag injection step (app.py lines 330-337). -/
def baseStep (base_domain html : Str) : Str :=
  if containsS (lowerStr html) (str "<head>") && !containsS (lowerStr html) (str "<base") then
    subTagIns (str "head") (str "<base href=\"" ++ base_domain ++ str "/\">") html
  else html

/-- A match of `((?:src|href)\s*=\s*["\'])([^"\']+)(["\'])`. -/
structure AttrMatch where
  g0 : Str
  g1 : Str
  url : Str
  len : Nat

/-- The `src`/`href` alternative of the attribute regex (original-case
characters are kept for the groups). -/
def attrName (l : Str) : Option (Str × Str) :=
  match stripPrefixCI (str "src") l with
  | some r => some (l.take 3, r)
  | none =>
    match stripPrefixCI (str "href") l with
    | some r => some (l.take 4, r)
    | none => none

/-- Match the attribute regex at the head of `l`. -/
def attrMatch (l : Str) : Option AttrMatch :=
  match attrName l with
  | none => none
  | some (name, rest) =>
    let ws1 := rest.takeWhile isPySpace
    let rest2 := rest.dropWhile isPySpace
    match rest2 with
    | [] => none
    | eqc :: rest3 =>
      if eqc = '=' then
        let ws2 := rest3.takeWhile isPySpace
        let rest4 := rest3.dropWhile isPySpace
        match rest4 with
        | [] => none
        | q1 :: rest5 =>
          if q1 = '"' ∨ q1 = '\'' then
            let body := rest5.takeWhile (fun c => !(c = '"' || c = '\''))
            if body = [] then none
            else
              match rest5.dropWhile (fun c => !(c = '"' || c = '\'')) with
              | [] => none
              | q2 :: _ =>
                let g1 := name ++ ws1 ++ '=' :: ws2 ++ [q1]
                some ⟨g1 ++ body ++ [q2], g1, body,
                  name.length + ws1.length + 1 + ws2.length + 1 + body.length + 1⟩
          else none
      else none

/-- `url.startswith(('http://', 'https://', '//'))`. -/
def startsAbs (u : Str) : Bool :=
  startsWithS u (str "http://") || startsWithS u (str "https://") ||
    startsWithS u (str "//")

/-- Worker for `subAttrUrls`: the `rewrite_absolute_url` substitution
(app.py lines 341-357).  Absolute URLs are re-resolved with `urljoin` and
re-emitted as `{group1}="{absolute}"`; other matches are kept verbatim. -/
def goAttr (base : Str) : Nat → Str → Except Str Str
  | 0, [] => .ok []
  | _ + 1, [] => .ok []
  | p + 1, _ :: cs => goAttr base p cs
  | 0, c :: cs =>
    match attrMatch (c :: cs) with
    | some m =>
      if startsAbs m.url then
        match pyUrljoin base m.url with
        | .error e => .error e
        | .ok abs =>
          match goAttr base (m.len - 1) cs with
          | .error e => .error e
          | .ok rest => .ok (m.g1 ++ '=' :: '"' :: (abs ++ '"' :: rest))
      else
        match goAttr base (m.len - 1) cs with
        | .error e => .error e
        | .ok rest => .ok (m.g0 ++ rest)
    | none =>
      match goAttr base 0 cs with
      | .error e => .error e
      | .ok rest => .ok (c :: rest)

/-- The `src`/`href` rewriting step (app.py lines 351-357). -/
def subAttrUrls (base html : Str) : Except Str Str := goAttr base 0 html

/-- A match of `url\(([^\)]+)\)`. -/
structure CssMatch where
  g0 : Str
  inner : Str
  len : Nat

/-- Match the CSS `url(...)` regex at the head of `l`. -/
def cssMatch (l : Str) : Option CssMatch :=
  match stripPrefixCI (str "url") l with
  | none => none
  | some rest =>
    match rest with
    | [] => none
    | po :: rest2 =>
      if po = '(' then
        let body := rest2.takeWhile (fun c => c ≠ ')')
        if body = [] then none
        else
          match rest2.dropWhile (fun c => c ≠ ')') with
          | [] => none
          | _ :: _ => some ⟨l.take 3 ++ '(' :: (body ++ [')']), body, 3 + 1 + body.length + 1⟩
      else none

/-- Python `s.strip('\'"')`. -/
def stripQuotes (s : Str) : Str :=
  ((s.dropWhile quoteChar).reverse.dropWhile quoteChar).reverse
where quoteChar (c : Char) : Bool := c = '\'' || c = '"'

/-- Worker for `subCssUrls`: the `rewrite_css_url` substitution (app.py
lines 360-372); `data:` URLs are kept, others re-resolved with `urljoin`
and re-emitted as `url("{absolute}")`. -/
def goCss (base : Str) : Nat → Str → Except Str Str
  | 0, [] => .ok []
  | _ + 1, [] => .ok []
  | p + 1, _ :: cs => goCss base p cs
  | 0, c :: cs =>
    match cssMatch (c :: cs) with
    | some m =>
      if !startsWithS (stripQuotes m.inner) (str "data:") then
        match pyUrljoin base (stripQuotes m.inner) with
        | .error e => .error e
        | .ok abs =>
          match goCss base (m.len - 1) cs with
          | .error e => .error e
          | .ok rest => .ok (str "url(\"" ++ abs ++ str "\")" ++ rest)
      else
        match goCss base (m.len - 1) cs with
        | .error e => .error e
        | .ok rest => .ok (m.g0 ++ rest)
    | none =>
      match goCss base 0 cs with
      | .error e => .error e
      | .ok rest => .ok (c :: rest)

/-- The CSS `url()` rewriting step (app.py lines 360-372). -/
def subCssUrls (base html : Str) : Except Str Str := goCss base 0 html

/-- `rewrite_html_content(html, base_url, session_token)` (app.py lines
261-378).  The `except` handler returns the local `html`, which the earlier
steps have already rebound: a `ValueError` raised by `urljoin` inside the
attribute `re.sub` yields the string produced by the completed injection
steps, one raised inside the CSS `re.sub` yields the attribute-rewritten
string, and only a failure of the initial `urlparse` yields the original
input. -/
def rewrite_html_content (html base_url session_token : Str) : Str :=
  match pyUrlparse base_url [] with
  | .error _ => html
  | .ok pb =>
    let base_domain := pb.scheme ++ str "://" ++ pb.netloc
    let h2 := baseStep base_domain (scriptStep html)
    match subAttrUrls base_url h2 with
    | .error _ => h2
    | .ok h3 =>
      match subCssUrls base_url h3 with
      | .error _ => h3
      | .ok h4 => h4

/-- The rewrite with both injection steps skipped: what
`rewrite_html_content` computes when neither `<head>` nor `<html>` occurs
in the input (the `except` handler still returns the rebound local on an
internal error). -/
def rewriteNoInj (html base_url : Str) : Str :=
  match pyUrlparse base_url [] with
  | .error _ => html
  | .ok _ =>
    match subAttrUrls base_url html with
    | .error _ => html
    | .ok h3 =>
      match subCssUrls base_url h3 with
      | .error _ => h3
      | .ok h4 => h4

/-- The rewrite with the base-tag injection step skipped: what
`rewrite_html_content` computes when the document still contains `<base`
after the script-injection step. -/
def rewriteNoBase (html base_url : Str) : Str :=
  match pyUrlparse base_url [] with
  | .error _ => html
  | .ok _ =>
    let h2 := scriptStep html
    match subAttrUrls base_url h2 with
    | .error _ => h2
    | .ok h3 =>
      match subCssUrls base_url h3 with
      | .error _ => h3
      | .ok h4 => h4

/-- Number of positions where `pat` occurs in `l`. -/
def countOccur (pat : Str) : Str → Nat
  | [] => 0
  | c :: cs => (if pat.isPrefixOf (c :: cs) then 1 else 0) + countOccur pat cs


/-- Three-valued case-insensitive strip over a segment: `some (some rest)`
when the whole of `pre` was consumed inside the segment, `some none` on a
definite mismatch inside the segment, `none` when the segment ran out. -/
def stripCI3 (pre l : Str) : Option (Option Str) :=
  match pre, l with
  | [], l => some (some l)
  | _ :: _, [] => none
  | p :: ps, c :: cs => if lowerChar c = lowerChar p then stripCI3 ps cs else some none

/-- `tagMatchB tag s = true` certifies that the tag regex cannot match at
this position whatever text follows the segment `s`. -/
def tagMatchB (tag : Str) (l : Str) : Bool :=
  match l with
  | [] => false
  | c :: cs =>
    if c = '<' then
      match stripCI3 tag cs with
      | some none => true
      | _ => false
    else true

/-- No tag match can start at any position of the segment. -/
def tagClean (tag : Str) : Str → Bool
  | [] => true
  | l@(_ :: cs) => tagMatchB tag l && tagClean tag cs

/-- `attrMatchB s = true` certifies that the attribute regex cannot match at
this position whatever text follows the segment `s`. -/
def attrMatchB (l : Str) : Bool :=
  match (match stripCI3 (str "src") l with
         | some (some r) => some (some r)
         | some none => stripCI3 (str "href") l
         | none => none) with
  | none => false
  | some none => true
  | some (some rest) =>
    match rest.dropWhile isPySpace with
    | [] => false
    | eqc :: rest3 =>
      if eqc = '=' then
        match rest3.dropWhile isPySpace with
        | [] => false
        | q1 :: rest5 =>
          if q1 = '"' ∨ q1 = '\'' then
            if (rest5.dropWhile (fun c => !(c = '"' || c = '\''))).isEmpty then false
            else if rest5.takeWhile (fun c => !(c = '"' || c = '\'')) = [] then true
            else false
          else true
      else true

def attrClean : Str → Bool
  | [] => true
  | l@(_ :: cs) => attrMatchB l && attrClean cs

/-- `cssMatchB s = true` certifies that the CSS `url(...)` regex cannot
match at this position whatever text follows the segment `s`. -/
def cssMatchB (l : Str) : Bool :=
  match stripCI3 (str "url") l with
  | none => false
  | some none => true
  | some (some rest) =>
    match rest with
    | [] => false
    | po :: rest2 =>
      if po = '(' then
        if (rest2.dropWhile (fun c => c ≠ ')')).isEmpty then false
        else if rest2.takeWhile (fun c => c ≠ ')') = [] then true
        else false
      else true

def cssClean : Str → Bool
  | [] => true
  | l@(_ :: cs) => cssMatchB l && cssClean cs

/-! ## Theorems for the claims -/

/-- C5: the output of `strip_security_headers` never contains a key
case-insensitively equal to x-frame-options, content-security-policy (or its
report-only variant), set-cookie, content-encoding, transfer-encoding or
content-length, and every entry whose key is not in the block list passes
through unchanged, original case included. -/
theorem strip_security_headers_correct (hs : Headers) (kv : Str × Str) :
    (kv ∈ strip_security_headers hs →
      lowerStr kv.fst ∉ [str "x-frame-options", str "content-security-policy",
        str "content-security-policy-report-only", str "set-cookie",
        str "content-encoding", str "transfer-encoding", str "content-length"]) ∧
    (kv ∈ hs → lowerStr kv.fst ∉ blocked_headers →
      kv ∈ strip_security_headers hs) := by
  have sub7 : ∀ x ∈ [str "x-frame-options", str "content-security-policy",
      str "content-security-policy-report-only", str "set-cookie",
      str "content-encoding", str "transfer-encoding", str "content-length"],
      x ∈ blocked_headers := by decide
  constructor
  · intro hmem h7
    have hdec := (List.mem_filter.mp hmem).2
    rw [decide_eq_true_eq] at hdec
    exact hdec (sub7 _ h7)
  · intro hin hnb
    exact List.mem_filter.mpr ⟨hin, decide_eq_true hnb⟩

/-- Witness for `strip_security_headers_correct` at a concrete header map. -/
theorem strip_security_headers_correct_witness :
    lowerStr (str "X-Custom") ∉ [str "x-frame-options", str "content-security-policy",
        str "content-security-policy-report-only", str "set-cookie",
        str "content-encoding", str "transfer-encoding", str "content-length"] ∧
    (str "X-Custom", str "v") ∈ strip_security_headers sampleHeaders :=
  ⟨(strip_security_headers_correct sampleHeaders (str "X-Custom", str "v")).1
      (by decide),
   (strip_security_headers_correct sampleHeaders (str "X-Custom", str "v")).2
      (by decide) (by decide)⟩

/-- C6: `decompress_content` is total, and whenever the transform selected by
the Content-Encoding value fails (for deflate: both the zlib and the raw
windowing retry), the original bytes are returned unchanged. -/
theorem decompress_content_error_fallback (k : Codecs) (c : Bytes) (e : Str) :
    (containsS (lowerStr e) (str "gzip") = true → k.gzipD c = .error () →
      decompress_content k c e = c) ∧
    (containsS (lowerStr e) (str "gzip") = false →
      containsS (lowerStr e) (str "deflate") = true →
      k.zlibD c = .error () → k.zlibRawD c = .error () →
      decompress_content k c e = c) ∧
    (containsS (lowerStr e) (str "gzip") = false →
      containsS (lowerStr e) (str "deflate") = false →
      containsS (lowerStr e) (str "br") = true → k.brotliD c = .error () →
      decompress_content k c e = c) := by
  by_cases he : e = []
  · subst he
    refine ⟨fun h1 _ => ?_, fun h1 h2 _ _ => ?_, fun h1 h2 h3 _ => ?_⟩ <;>
      simp [decompress_content]
  · by_cases hg : textGuard c = true
    · refine ⟨fun h1 _ => ?_, fun h1 h2 _ _ => ?_, fun h1 h2 h3 _ => ?_⟩ <;>
        simp [decompress_content, he, hg]
    · rw [Bool.not_eq_true] at hg
      refine ⟨fun h1 h2 => ?_, fun h1 h2 h3 h4 => ?_, fun h1 h2 h3 h4 => ?_⟩
      · simp [decompress_content, he, hg, h1, h2]
      · simp [decompress_content, he, hg, h1, h2, h3, h4]
      · simp [decompress_content, he, hg, h1, h2, h3, h4]

/-- Witness for `decompress_content_error_fallback`: all three failing
branches return the input. -/
theorem decompress_content_error_fallback_witness :
    decompress_content failCodecs [0x8b] (str "gzip") = [0x8b] ∧
    decompress_content failCodecs [0x8b] (str "deflate") = [0x8b] ∧
    decompress_content failCodecs [0x8b] (str "br") = [0x8b] :=
  ⟨(decompress_content_error_fallback failCodecs [0x8b] (str "gzip")).1
      (by decide) (by decide),
   (decompress_content_error_fallback failCodecs [0x8b] (str "deflate")).2.1
      (by decide) (by decide) (by decide) (by decide),
   (decompress_content_error_fallback failCodecs [0x8b] (str "br")).2.2
      (by decide) (by decide) (by decide) (by decide)⟩

/-- C7 counterexample: a valid gzip stream of "html" (a stored block, so the
literal bytes "html" appear in it) trips the plain-text guard, and
`decompress_content` returns the compressed stream instead of the round-trip
payload. -/
theorem decompress_gzip_roundtrip_counterexample :
    gzHtmlCodecs.gzipD gzHtmlBytes = .ok htmlBytes ∧
    decompress_content gzHtmlCodecs gzHtmlBytes (str "gzip") = gzHtmlBytes ∧
    gzHtmlBytes ≠ htmlBytes := by decide

/-- C7 amended: the gzip round-trip holds whenever the compressed bytes do
not pass the plain-text guard, and any input passing the guard is returned
unchanged for every encoding label. -/
theorem decompress_gzip_roundtrip_guarded (k : Codecs) (comp b c : Bytes)
    (e : Str) :
    (textGuard comp = false → k.gzipD comp = .ok b →
      decompress_content k comp (str "gzip") = b) ∧
    (textGuard c = true → decompress_content k c e = c) := by
  constructor
  · intro hg hok
    have hne : ¬ (str "gzip" = ([] : Str)) := by decide
    have hc : containsS (lowerStr (str "gzip")) (str "gzip") = true := by decide
    simp [decompress_content, hne, hg, hc, hok]
  · intro hg
    by_cases he : e = []
    · subst he; simp [decompress_content]
    · simp [decompress_content, he, hg]

/-- Witness for `decompress_gzip_roundtrip_guarded`. -/
theorem decompress_gzip_roundtrip_guarded_witness :
    decompress_content gz3Codecs [0x1f, 0x8b, 0x08] (str "gzip") = [104] ∧
    decompress_content gz3Codecs (strToBytes (str "<html>")) (str "gzip") =
      strToBytes (str "<html>") :=
  ⟨(decompress_gzip_roundtrip_guarded gz3Codecs [0x1f, 0x8b, 0x08] [104] []
      (str "gzip")).1 (by decide) (by decide),
   (decompress_gzip_roundtrip_guarded gz3Codecs [] []
      (strToBytes (str "<html>")) (str "gzip")).2 (by decide)⟩

/-- C2 amended: the `/proxy` endpoint fails with the oversize error whenever
the decompressed body exceeds `MAX_RESPONSE_SIZE`, while the `/resource`
endpoint forwards the decompressed body whole, with no size check. -/
theorem proxy_oversize_resource_unchecked (k : Codecs) (raw : Bytes) (ce : Str)
    (ct : Option Str) :
    (MAX_RESPONSE_SIZE < (proxyDecompressed k raw ce).length →
      proxy_content_gate k raw ce =
        .error (str "Response too large. Maximum size is 50.0MB")) ∧
    (proxy_resource_response k raw ce ct).fst = proxyDecompressed k raw ce := by
  refine ⟨fun h => ?_, rfl⟩
  simp only [proxy_content_gate]
  rw [if_pos h]

/-- Witness for `proxy_oversize_resource_unchecked` at a body one byte over
the ceiling. -/
theorem proxy_oversize_resource_unchecked_witness :
    proxy_content_gate failCodecs (List.replicate (MAX_RESPONSE_SIZE + 1) 0) [] =
      .error (str "Response too large. Maximum size is 50.0MB") ∧
    (proxy_resource_response failCodecs (List.replicate (MAX_RESPONSE_SIZE + 1) 0)
        [] none).fst = proxyDecompressed failCodecs
        (List.replicate (MAX_RESPONSE_SIZE + 1) 0) [] := by
  have hd : proxyDecompressed failCodecs (List.replicate (MAX_RESPONSE_SIZE + 1) 0) [] =
      List.replicate (MAX_RESPONSE_SIZE + 1) 0 := by
    simp [proxyDecompressed, lowerStr]
  refine ⟨(proxy_oversize_resource_unchecked failCodecs _ [] none).1 ?_,
    (proxy_oversize_resource_unchecked failCodecs _ [] none).2⟩
  rw [hd, List.length_replicate]
  omega

/-- C2 counterexample: an oversize body reaching the `/resource` endpoint is
forwarded in full rather than rejected. -/
theorem resource_oversize_forwarded_counterexample :
    (proxy_resource_response failCodecs (List.replicate (MAX_RESPONSE_SIZE + 1) 0)
        [] none).fst = List.replicate (MAX_RESPONSE_SIZE + 1) 0 ∧
    MAX_RESPONSE_SIZE < (List.replicate (MAX_RESPONSE_SIZE + 1) 0 : Bytes).length := by
  constructor
  · simp [proxy_resource_response, proxyDecompressed, lowerStr]
  · rw [List.length_replicate]; omega


theorem parseOctet_shape {g : Str} {v : Nat} (h : parseOctet g = some v) :
    (!g.isEmpty && g.length ≤ 3 && g.all Char.isDigit) = true := by
  unfold parseOctet at h
  split at h
  · rename_i hc
    simp [List.isEmpty_iff, hc.1, hc.2.1, hc.2.2.1]
  · exact absurd h (by simp)

theorem parseIPv4_re {h : Str} {ip : Nat} (hp : parseIPv4 h = some ip) :
    re_ipv4 h = true := by
  unfold parseIPv4 at hp
  unfold re_ipv4
  split at hp
  · rename_i a b c d heq
    rw [heq]
    cases ea : parseOctet a <;> rw [ea] at hp
    · exact absurd hp (by simp)
    cases eb : parseOctet b <;> rw [eb] at hp
    · exact absurd hp (by simp)
    cases ec : parseOctet c <;> rw [ec] at hp
    · exact absurd hp (by simp)
    cases ed : parseOctet d <;> rw [ed] at hp
    · exact absurd hp (by simp)
    simp [parseOctet_shape ea, parseOctet_shape eb,
      parseOctet_shape ec, parseOctet_shape ed]
  · exact absurd hp (by simp)

/-- C1 amended: every URL whose hostname is a literal IPv4 dotted-quad
address in the blocked ranges is rejected by `validate_url`, whatever its
scheme or path; IPv6 literals are not subject to the range check. -/
theorem validate_blocked_ipv4_rejected (url h : Str)
    (hh : hostnameOfUrl url = some h) (hb : blockedIPv4Literal h = true) :
    (validate_url url).fst = false := by
  unfold hostnameOfUrl at hh
  unfold blockedIPv4Literal at hb
  unfold validate_url
  cases e : pyUrlparse url [] with
  | error msg => exact absurd hh (by rw [e]; simp)
  | ok p =>
    rw [e] at hh
    simp only [Option.some.injEq] at hh
    cases hip : parseIPv4 h with
    | none => rw [hip] at hb; exact absurd hb (by simp)
    | some ip =>
      rw [hip] at hb
      simp only [] at hb
      have hre : re_ipv4 h = true := parseIPv4_re hip
      simp only []
      split
      · rfl
      · rw [hh]
        split
        · rfl
        · cases hf : BLOCKED_DOMAINS.find? (fun b => endsWithS (lowerStr h) b) with
          | some b => simp
          | none =>
            simp only []
            split
            · rfl
            · split
              · rename_i v heq
                rw [hip] at heq
                injection heq with hv
                subst hv
                simp [hb]
              · rename_i heq
                rw [hip] at heq
                exact absurd heq (by simp)

/-- Witness for `validate_blocked_ipv4_rejected` at `http://10.0.0.5/`. -/
theorem validate_blocked_ipv4_rejected_witness :
    hostnameOfUrl (str "http://10.0.0.5/") = some (str "10.0.0.5") ∧
    blockedIPv4Literal (str "10.0.0.5") = true ∧
    (validate_url (str "http://10.0.0.5/")).fst = false :=
  ⟨by decide, by decide,
   validate_blocked_ipv4_rejected (str "http://10.0.0.5/") (str "10.0.0.5")
     (by decide) (by decide)⟩

/-- C1 counterexample: the hostname of `http://[::1]/` is the IPv6 loopback
literal `::1`, yet `validate_url` accepts the URL — the range check only
matches IPv4 dotted quads. -/
theorem validate_ipv6_loopback_counterexample :
    hostnameOfUrl (str "http://[::1]/") = some (str "::1") ∧
    specBlockedIpLiteral (str "::1") = true ∧
    validate_url (str "http://[::1]/") = (true, []) := by decide

theorem isPrefixOf_append_self (p x : Str) : p.isPrefixOf (p ++ x) = true := by
  induction p with
  | nil => simp [List.isPrefixOf]
  | cons a p ih => simp [List.isPrefixOf, ih]

theorem isPrefixOf_to_ex : ∀ (p u : Str), p.isPrefixOf u = true → ∃ v, u = p ++ v := by
  intro p
  induction p with
  | nil => exact fun u _ => ⟨u, rfl⟩
  | cons a p ih =>
    intro u h
    cases u with
    | nil => simp [List.isPrefixOf] at h
    | cons b u' =>
      simp only [List.isPrefixOf, Bool.and_eq_true, beq_iff_eq] at h
      obtain ⟨v, rfl⟩ := ih u' h.2
      exact ⟨v, by rw [h.1, List.cons_append]⟩

theorem splitFirst_first (c : Char) :
    ∀ (xs ys : Str), xs.contains c = false → splitFirst c (xs ++ c :: ys) = some (xs, ys) := by
  intro xs
  induction xs with
  | nil => intro ys _; simp [splitFirst]
  | cons a xs ih =>
    intro ys h
    simp only [List.contains_cons, Bool.or_eq_false_iff] at h
    have ha : ¬ a = c := by
      intro hac
      subst hac
      simp at h
    simp [splitFirst, ha, ih ys h.2]

theorem pyStrip_keeps_http (v : Str) :
    ∃ t, pyStrip (str "http://" ++ v) = str "http://" ++ t := by
  unfold pyStrip pyLStrip pyRStrip
  have e7 : str "http://" = 'h' :: str "ttp://" := rfl
  have h1 : (str "http://" ++ v).dropWhile isPySpace = str "http://" ++ v := by
    rw [e7, List.cons_append, List.dropWhile_cons]
    have : isPySpace 'h' = false := by decide
    rw [this]
    simp
  rw [h1, List.reverse_append, List.dropWhile_append]
  by_cases h2 : (v.reverse.dropWhile isPySpace).isEmpty
  · rw [if_pos h2]
    have h3 : (str "http://").reverse.dropWhile isPySpace = (str "http://").reverse := by
      decide
    rw [h3, List.reverse_reverse]
    exact ⟨[], by simp⟩
  · rw [if_neg h2, List.reverse_append, List.reverse_reverse]
    exact ⟨(v.reverse.dropWhile isPySpace).reverse, rfl⟩

theorem schemeSplit_http (t : Str) :
    schemeSplit [] (str "http://" ++ t) = (str "http", '/' :: '/' :: t) := by
  unfold schemeSplit
  have eassoc : str "http://" ++ t = str "http" ++ ':' :: ('/' :: '/' :: t) := rfl
  rw [eassoc, splitFirst_first ':' (str "http") ('/' :: '/' :: t) (by decide)]
  simp only []
  rw [if_pos (by decide)]
  have hl : lowerStr (str "http") = str "http" := by decide
  rw [hl]

theorem dropWhileC0_http (t : Str) :
    (str "http://" ++ t).dropWhile isC0OrSpace = str "http://" ++ t := by
  have e7 : str "http://" = 'h' :: str "ttp://" := rfl
  rw [e7, List.cons_append, List.dropWhile_cons]
  have hh : isC0OrSpace 'h' = false := by decide
  rw [hh]
  simp

theorem pyUrlsplitCore_scheme (s u : Str) (P : UrlSplit)
    (h : pyUrlsplitCore s u = .ok P) : P.scheme = s := by
  unfold pyUrlsplitCore at h
  split at h
  · dsimp only [] at h
    split at h
    · simp at h
    · split at h
      · split at h
        · injection h with h2
          rw [← h2]
          rfl
        · simp at h
      · injection h with h2
        rw [← h2]
        rfl
  · injection h with h2
    rw [← h2]
    rfl

theorem pyUrlsplit_http_scheme (t : Str) (P : UrlSplit)
    (h : pyUrlsplit (str "http://" ++ t) [] = .ok P) : P.scheme = str "http" := by
  simp only [pyUrlsplit] at h
  have hfl : (str "http://").filter (fun c => !isUnsafeUrlChar c) = str "http://" := by
    decide
  rw [dropWhileC0_http, List.filter_append, hfl] at h
  have hd : ((c0Strip []).filter fun c => !isUnsafeUrlChar c) = ([] : Str) := rfl
  rw [hd, schemeSplit_http] at h
  exact pyUrlsplitCore_scheme _ _ _ h

theorem pyUrlparse_http_scheme (t : Str) (P : UrlParse)
    (h : pyUrlparse (str "http://" ++ t) [] = .ok P) : P.scheme = str "http" := by
  unfold pyUrlparse at h
  split at h
  · simp at h
  · rename_i sp heq
    have hs := pyUrlsplit_http_scheme t sp heq
    split at h
    · injection h with h2
      rw [← h2]
      exact hs
    · injection h with h2
      rw [← h2]
      exact hs

theorem pyUrlunparse_http_shape (p : UrlParse) (h : p.scheme = str "http") :
    ∃ m, pyUrlunparse p = str "http:" ++ m := by
  unfold pyUrlunparse pyUrlunsplit
  rw [h]
  dsimp only []
  rw [if_pos (by decide : (str "http" : Str) ≠ [])]
  have base : ∀ x : Str, str "http" ++ ':' :: x = str "http:" ++ x := fun x => rfl
  split
  · split
    · rw [base]
      exact ⟨_, by rw [List.append_assoc, List.append_assoc]⟩
    · rw [base]
      exact ⟨_, by rw [List.append_assoc]⟩
  · split
    · rw [base]
      exact ⟨_, by rw [List.append_assoc]⟩
    · rw [base]
      exact ⟨_, rfl⟩

theorem https_not_prefix_of_http (m : Str) :
    (str "https:").isPrefixOf (str "http:" ++ m) = false := by
  have e : str "http:" ++ m = 'h' :: 't' :: 't' :: 'p' :: ':' :: m := rfl
  rw [e]
  simp [List.isPrefixOf]

/-- C10: `normalize_url` never upgrades an explicit `http://` input to
https — the scheme component it selects is `http` and the returned URL
begins with `http:`, not `https:`. -/
theorem normalize_keeps_explicit_http (u : Str)
    (hu : startsWithS u (str "http://") = true) :
    (∀ p, normalizeParts u = .ok p → p.scheme = str "http") ∧
    (∀ r, normalize_url u = .ok r →
      startsWithS r (str "http:") = true ∧ startsWithS r (str "https:") = false) := by
  obtain ⟨v, rfl⟩ := isPrefixOf_to_ex _ _ hu
  obtain ⟨t0, hstrip⟩ := pyStrip_keeps_http v
  have hpart : ∀ p, normalizeParts (str "http://" ++ v) = .ok p → p.scheme = str "http" := by
    intro p hp
    unfold normalizeParts at hp
    rw [hstrip] at hp
    dsimp only [] at hp
    have hsw : startsWithS (str "http://" ++ t0) (str "http://") = true :=
      isPrefixOf_append_self _ _
    rw [hsw] at hp
    simp only [Bool.true_or, Bool.not_true] at hp
    rw [if_neg (by simp)] at hp
    split at hp
    · simp at hp
    · rename_i P heq
      have hs := pyUrlparse_http_scheme t0 P heq
      rw [hs] at hp
      rw [if_neg (by simp)] at hp
      split at hp
      · simp at hp
      · injection hp with h2
        rw [← h2]
  refine ⟨hpart, ?_⟩
  intro r hr
  unfold normalize_url at hr
  cases en : normalizeParts (str "http://" ++ v) with
  | error e => rw [en] at hr; simp [Except.map] at hr
  | ok p =>
    rw [en] at hr
    simp only [Except.map] at hr
    injection hr with hr2
    obtain ⟨m, hm⟩ := pyUrlunparse_http_shape p (hpart p en)
    constructor
    · rw [← hr2, hm]
      exact isPrefixOf_append_self _ _
    · rw [← hr2, hm]
      exact https_not_prefix_of_http m

/-- Witness for `normalize_keeps_explicit_http` at `http://example.com`. -/
theorem normalize_keeps_explicit_http_witness :
    (UrlParse.mk (str "http") (str "example.com") (str "/") [] [] []).scheme =
      str "http" ∧
    (startsWithS (str "http://example.com/") (str "http:") = true ∧
      startsWithS (str "http://example.com/") (str "https:") = false) := by
  have h := normalize_keeps_explicit_http (str "http://example.com") (by decide)
  exact ⟨h.1 ⟨str "http", str "example.com", str "/", [], [], []⟩ (by decide),
    h.2 (str "http://example.com/") (by decide)⟩

theorem containsS_spec (l p : Str) : containsS l p = true ↔ p <:+: l := by
  induction l with
  | nil =>
    simp [containsS, List.isEmpty_iff]
  | cons c cs ih =>
    simp only [containsS, Bool.or_eq_true, List.isPrefixOf_iff_prefix, ih,
      List.infix_cons_iff]

theorem containsS_append_right (x y p : Str) (h : containsS y p = true) :
    containsS (x ++ y) p = true := by
  rw [containsS_spec] at h ⊢
  obtain ⟨s, t, rfl⟩ := h
  exact ⟨x ++ s, t, by simp⟩

theorem containsS_append_left (x y p : Str) (h : containsS x p = true) :
    containsS (x ++ y) p = true := by
  rw [containsS_spec] at h ⊢
  obtain ⟨s, t, rfl⟩ := h
  exact ⟨s, t ++ y, by simp⟩

theorem stripCI3_ok {pre l rest : Str} (h : stripCI3 pre l = some (some rest)) :
    ∀ r, stripPrefixCI pre (l ++ r) = some (rest ++ r) := by
  induction pre generalizing l with
  | nil =>
    intro r
    simp [stripCI3] at h
    simp [stripPrefixCI, h]
  | cons p ps ih =>
    intro r
    cases l with
    | nil => simp [stripCI3] at h
    | cons c cs =>
      simp only [stripCI3] at h
      by_cases hc : lowerChar c = lowerChar p
      · rw [if_pos hc] at h
        simp only [List.cons_append, stripPrefixCI, if_pos hc]
        exact ih h r
      · rw [if_neg hc] at h
        simp at h

theorem stripCI3_none {pre l : Str} (h : stripCI3 pre l = some none) :
    ∀ r, stripPrefixCI pre (l ++ r) = none := by
  induction pre generalizing l with
  | nil => simp [stripCI3] at h
  | cons p ps ih =>
    intro r
    cases l with
    | nil => simp [stripCI3] at h
    | cons c cs =>
      simp only [stripCI3] at h
      by_cases hc : lowerChar c = lowerChar p
      · rw [if_pos hc] at h
        simp only [List.cons_append, stripPrefixCI, if_pos hc]
        exact ih h r
      · simp only [List.cons_append, stripPrefixCI, if_neg hc]

theorem tagMatchB_sound {tag l : Str} (h : tagMatchB tag l = true) :
    ∀ r, tagMatchLen tag (l ++ r) = none := by
  intro r
  cases l with
  | nil => simp [tagMatchB] at h
  | cons c cs =>
    simp only [tagMatchB] at h
    by_cases hc : c = '<'
    · rw [if_pos hc] at h
      cases hs : stripCI3 tag cs with
      | none => rw [hs] at h; simp at h
      | some o =>
        cases o with
        | none =>
          simp only [List.cons_append, tagMatchLen, if_pos hc, stripCI3_none hs r]
        | some rest => rw [hs] at h; simp at h
    · rw [if_neg hc] at h
      simp only [List.cons_append, tagMatchLen, if_neg hc]

theorem tagClean_goIns (tag ins : Str) :
    ∀ x r, tagClean tag x = true →
      goIns tag ins 0 (x ++ r) = x ++ goIns tag ins 0 r := by
  intro x
  induction x with
  | nil => intro r _; rfl
  | cons c cs ih =>
    intro r h
    simp only [tagClean, Bool.and_eq_true] at h
    have hm := tagMatchB_sound h.1 r
    rw [List.cons_append] at hm
    simp only [List.cons_append, goIns, List.append_eq, hm, ih r h.2]

theorem attrMatchB_sound {l : Str} (h : attrMatchB l = true) :
    ∀ r, attrMatch (l ++ r) = none := by
  intro r
  unfold attrMatchB at h
  cases hs : stripCI3 (str "src") l with
  | none => rw [hs] at h; simp at h
  | some o1 =>
    cases o1 with
    | some rest =>
      rw [hs] at h
      dsimp only [] at h
      simp only [attrMatch, attrName, stripCI3_ok hs r]
      cases hd : rest.dropWhile isPySpace with
      | nil => rw [hd] at h; simp at h
      | cons eqc rest3 =>
        rw [hd] at h
        have hdr : (rest ++ r).dropWhile isPySpace = eqc :: (rest3 ++ r) := by
          rw [List.dropWhile_append, hd]; simp
        rw [hdr]
        dsimp only [] at h ⊢
        by_cases he : eqc = '='
        · rw [if_pos he] at h ⊢
          cases hd2 : rest3.dropWhile isPySpace with
          | nil => rw [hd2] at h; simp at h
          | cons q1 rest5 =>
            rw [hd2] at h
            have hdr2 : (rest3 ++ r).dropWhile isPySpace = q1 :: (rest5 ++ r) := by
              rw [List.dropWhile_append, hd2]; simp
            rw [hdr2]
            dsimp only [] at h ⊢
            by_cases hq : q1 = '"' ∨ q1 = '\''
            · rw [if_pos hq] at h ⊢
              cases rest5 with
              | nil => simp at h
              | cons c0 t =>
                by_cases hc0 : (!(c0 = '"' || c0 = '\'')) = true
                · simp [List.takeWhile_cons, List.dropWhile_cons, ite_self] at h
                  simp at hc0
                  exact absurd h.2 (not_or.mpr hc0)
                · have hb : (((c0 :: t) ++ r).takeWhile
                      (fun c => !(c = '"' || c = '\''))) = [] := by
                    simp only [List.cons_append]
                    exact List.takeWhile_cons_of_neg (by simpa using hc0)
                  rw [hb]
                  rfl
            · rw [if_neg hq]
        · rw [if_neg he]
    | none =>
      rw [hs] at h
      cases hh : stripCI3 (str "href") l with
      | none => rw [hh] at h; simp at h
      | some o2 =>
        cases o2 with
        | none =>
          simp only [attrMatch, attrName, stripCI3_none hs r, stripCI3_none hh r]
        | some rest =>
          rw [hh] at h
          dsimp only [] at h
          simp only [attrMatch, attrName, stripCI3_none hs r, stripCI3_ok hh r]
          cases hd : rest.dropWhile isPySpace with
          | nil => rw [hd] at h; simp at h
          | cons eqc rest3 =>
            rw [hd] at h
            have hdr : (rest ++ r).dropWhile isPySpace = eqc :: (rest3 ++ r) := by
              rw [List.dropWhile_append, hd]; simp
            rw [hdr]
            dsimp only [] at h ⊢
            by_cases he : eqc = '='
            · rw [if_pos he] at h ⊢
              cases hd2 : rest3.dropWhile isPySpace with
              | nil => rw [hd2] at h; simp at h
              | cons q1 rest5 =>
                rw [hd2] at h
                have hdr2 : (rest3 ++ r).dropWhile isPySpace = q1 :: (rest5 ++ r) := by
                  rw [List.dropWhile_append, hd2]; simp
                rw [hdr2]
                dsimp only [] at h ⊢
                by_cases hq : q1 = '"' ∨ q1 = '\''
                · rw [if_pos hq] at h ⊢
                  cases rest5 with
                  | nil => simp at h
                  | cons c0 t =>
                    by_cases hc0 : (!(c0 = '"' || c0 = '\'')) = true
                    · simp [List.takeWhile_cons, List.dropWhile_cons, ite_self] at h
                      simp at hc0
                      exact absurd h.2 (not_or.mpr hc0)
                    · have hb : (((c0 :: t) ++ r).takeWhile
                          (fun c => !(c = '"' || c = '\''))) = [] := by
                        simp only [List.cons_append]
                        exact List.takeWhile_cons_of_neg (by simpa using hc0)
                      rw [hb]
                      rfl
                · rw [if_neg hq]
            · rw [if_neg he]

theorem attrClean_goAttr (base : Str) :
    ∀ x r, attrClean x = true →
      goAttr base 0 (x ++ r) = (goAttr base 0 r).map (fun u => x ++ u) := by
  intro x
  induction x with
  | nil =>
    intro r _
    cases hr : goAttr base 0 r <;> simp [Except.map, hr]
  | cons c cs ih =>
    intro r h
    simp only [attrClean, Bool.and_eq_true] at h
    have hm := attrMatchB_sound h.1 r
    rw [List.cons_append] at hm
    rw [List.cons_append]
    simp only [goAttr, List.append_eq, hm, ih r h.2]
    cases hr : goAttr base 0 r <;> simp [Except.map, hr]

theorem cssMatchB_sound {l : Str} (h : cssMatchB l = true) :
    ∀ r, cssMatch (l ++ r) = none := by
  intro r
  unfold cssMatchB at h
  cases hs : stripCI3 (str "url") l with
  | none => rw [hs] at h; simp at h
  | some o1 =>
    cases o1 with
    | none =>
      simp only [cssMatch, stripCI3_none hs r]
    | some rest =>
      rw [hs] at h
      dsimp only [] at h
      simp only [cssMatch, stripCI3_ok hs r]
      cases rest with
      | nil => simp at h
      | cons po rest2 =>
        rw [List.cons_append]
        dsimp only [] at h ⊢
        by_cases hp : po = '('
        · rw [if_pos hp] at h ⊢
          cases rest2 with
          | nil => simp at h
          | cons c0 t =>
            by_cases hc0 : c0 = ')'
            · have hb : (((c0 :: t) ++ r).takeWhile (fun c => c ≠ ')')) = [] := by
                simp [hc0]
              rw [hb]
              rfl
            · simp [List.takeWhile_cons, List.dropWhile_cons, hc0, ite_self] at h
        · rw [if_neg hp]

theorem cssClean_goCss (base : Str) :
    ∀ x r, cssClean x = true →
      goCss base 0 (x ++ r) = (goCss base 0 r).map (fun u => x ++ u) := by
  intro x
  induction x with
  | nil =>
    intro r _
    cases hr : goCss base 0 r <;> simp [Except.map, hr]
  | cons c cs ih =>
    intro r h
    simp only [cssClean, Bool.and_eq_true] at h
    have hm := cssMatchB_sound h.1 r
    rw [List.cons_append] at hm
    rw [List.cons_append]
    simp only [goCss, List.append_eq, hm, ih r h.2]
    cases hr : goCss base 0 r <;> simp [Except.map, hr]

theorem lowerStr_append (x y : Str) : lowerStr (x ++ y) = lowerStr x ++ lowerStr y :=
  List.map_append lowerChar x y

theorem tagClean_goIns_nil (tag ins x : Str) (h : tagClean tag x = true) :
    goIns tag ins 0 x = x := by
  have h2 := tagClean_goIns tag ins x [] h
  rw [List.append_nil] at h2
  rw [h2]
  simp [goIns]

theorem attrClean_goAttr_nil (base x : Str) (h : attrClean x = true) :
    goAttr base 0 x = .ok x := by
  have h2 := attrClean_goAttr base x [] h
  rw [List.append_nil] at h2
  rw [h2]
  simp [goAttr, Except.map]

theorem cssClean_goCss_nil (base x : Str) (h : cssClean x = true) :
    goCss base 0 x = .ok x := by
  have h2 := cssClean_goCss base x [] h
  rw [List.append_nil] at h2
  rw [h2]
  simp [goCss, Except.map]

theorem script_tagClean : tagClean (str "head") postmessage_script = true := by decide

theorem script_attrClean : attrClean postmessage_script = true := by decide

theorem script_cssClean : cssClean postmessage_script = true := by decide

theorem goIns_head_start (ins R : Str) :
    goIns (str "head") ins 0 (str "<head>" ++ R) =
      str "<head>" ++ (ins ++ goIns (str "head") ins 0 R) := rfl

theorem countOccur_append_ge (pat x y : Str) :
    countOccur pat x + countOccur pat y ≤ countOccur pat (x ++ y) := by
  induction x with
  | nil => simp [countOccur]
  | cons c cs ih =>
    simp only [List.cons_append, countOccur, List.append_eq]
    by_cases hp : pat.isPrefixOf (c :: cs) = true
    · have hp2 : pat.isPrefixOf (c :: (cs ++ y)) = true := by
        rw [List.isPrefixOf_iff_prefix] at hp ⊢
        exact hp.trans ⟨y, by simp⟩
      rw [if_pos hp, if_pos hp2]
      omega
    · rw [if_neg hp]
      have : (if pat.isPrefixOf (c :: cs ++ y) = true then 1 else 0) +
          countOccur pat (cs ++ y) ≥ countOccur pat (cs ++ y) := by
        split <;> omega
      omega

theorem countOccur_self_le (c : Char) (t y : Str) :
    1 ≤ countOccur (c :: t) ((c :: t) ++ y) := by
  have hp : (c :: t).isPrefixOf (c :: (t ++ y)) = true := by
    rw [List.isPrefixOf_iff_prefix]
    exact ⟨y, by simp⟩
  simp only [List.cons_append, countOccur, List.append_eq]
  rw [if_pos hp]
  omega

theorem exampleParse :
    pyUrlparse (str "https://example.com/") [] =
      .ok ⟨str "https", str "example.com", str "/", [], [], []⟩ := by decide

theorem scriptStep_once :
    scriptStep (str "<head></head><base x>") =
      str "<head>" ++ (postmessage_script ++ str "</head><base x>") := by
  have hc : containsS (lowerStr (str "<head></head><base x>")) (str "<head>") = true := by
    decide
  have hsplit : (str "<head></head><base x>" : Str) =
      str "<head>" ++ str "</head><base x>" := by decide
  simp only [scriptStep, hc, if_true, subTagIns]
  rw [hsplit, goIns_head_start, tagClean_goIns_nil _ _ _ (by decide)]

theorem base_in_tail (x : Str) :
    containsS (lowerStr (x ++ str "</head><base x>")) (str "<base") = true := by
  rw [lowerStr_append]
  exact containsS_append_right _ _ _ (by decide)

theorem baseStep_skip (bd l : Str)
    (h : containsS (lowerStr l) (str "<base") = true) :
    baseStep bd l = l := by
  simp [baseStep, h]

theorem passAttr (b x : Str) (h : attrClean x = true) :
    ∀ y r, goAttr b 0 y = .ok r → goAttr b 0 (x ++ y) = .ok (x ++ r) := by
  intro y r hy
  rw [attrClean_goAttr b x y h, hy]
  rfl

theorem passCss (b x : Str) (h : cssClean x = true) :
    ∀ y r, goCss b 0 y = .ok r → goCss b 0 (x ++ y) = .ok (x ++ r) := by
  intro y r hy
  rw [cssClean_goCss b x y h, hy]
  rfl

theorem passAttrE (b x : Str) (h : attrClean x = true) :
    ∀ y e, goAttr b 0 y = .error e → goAttr b 0 (x ++ y) = .error e := by
  intro y e hy
  rw [attrClean_goAttr b x y h, hy]
  rfl

theorem rewrite_once_eq :
    rewrite_html_content (str "<head></head><base x>") (str "https://example.com/") [] =
      str "<head>" ++ (postmessage_script ++ str "</head><base x>") := by
  have a0 : goAttr (str "https://example.com/") 0 (str "</head><base x>") =
      .ok (str "</head><base x>") := attrClean_goAttr_nil _ _ (by decide)
  have a1 := passAttr (str "https://example.com/") postmessage_script
    script_attrClean _ _ a0
  have hattr := passAttr (str "https://example.com/") (str "<head>")
    (by decide) _ _ a1
  have c0 : goCss (str "https://example.com/") 0 (str "</head><base x>") =
      .ok (str "</head><base x>") := cssClean_goCss_nil _ _ (by decide)
  have c1 := passCss (str "https://example.com/") postmessage_script
    script_cssClean _ _ c0
  have hcss := passCss (str "https://example.com/") (str "<head>")
    (by decide) _ _ c1
  unfold rewrite_html_content
  rw [exampleParse]
  dsimp only []
  rw [scriptStep_once, baseStep_skip _ _ (by
    rw [lowerStr_append]
    exact containsS_append_right _ _ _ (base_in_tail _))]
  simp only [subAttrUrls, subCssUrls]
  rw [hattr]
  dsimp only []
  rw [hcss]

theorem scriptStep_twice :
    scriptStep (str "<head>" ++ (postmessage_script ++ str "</head><base x>")) =
      str "<head>" ++ (postmessage_script ++
        (postmessage_script ++ str "</head><base x>")) := by
  have hc : containsS (lowerStr (str "<head>" ++
      (postmessage_script ++ str "</head><base x>"))) (str "<head>") = true := by
    rw [lowerStr_append]
    exact containsS_append_left _ _ _ (by decide)
  simp only [scriptStep, hc, if_true, subTagIns]
  rw [goIns_head_start, tagClean_goIns _ _ _ _ script_tagClean,
    tagClean_goIns_nil _ _ _ (by decide)]

theorem rewrite_twice_eq :
    rewrite_html_content
        (str "<head>" ++ (postmessage_script ++ str "</head><base x>"))
        (str "https://example.com/") [] =
      str "<head>" ++ (postmessage_script ++
        (postmessage_script ++ str "</head><base x>")) := by
  have a0 : goAttr (str "https://example.com/") 0 (str "</head><base x>") =
      .ok (str "</head><base x>") := attrClean_goAttr_nil _ _ (by decide)
  have a1 := passAttr (str "https://example.com/") postmessage_script
    script_attrClean _ _ a0
  have a2 := passAttr (str "https://example.com/") postmessage_script
    script_attrClean _ _ a1
  have hattr := passAttr (str "https://example.com/") (str "<head>")
    (by decide) _ _ a2
  have c0 : goCss (str "https://example.com/") 0 (str "</head><base x>") =
      .ok (str "</head><base x>") := cssClean_goCss_nil _ _ (by decide)
  have c1 := passCss (str "https://example.com/") postmessage_script
    script_cssClean _ _ c0
  have c2 := passCss (str "https://example.com/") postmessage_script
    script_cssClean _ _ c1
  have hcss := passCss (str "https://example.com/") (str "<head>")
    (by decide) _ _ c2
  unfold rewrite_html_content
  rw [exampleParse]
  dsimp only []
  rw [scriptStep_twice, baseStep_skip _ _ (by
    rw [lowerStr_append]
    apply containsS_append_right
    rw [lowerStr_append]
    exact containsS_append_right _ _ _ (base_in_tail postmessage_script))]
  simp only [subAttrUrls, subCssUrls]
  rw [hattr]
  dsimp only []
  rw [hcss]

theorem stripPrefixCI_drop :
    ∀ {tag l r : Str}, stripPrefixCI tag l = some r →
      r = l.drop tag.length ∧ tag.length ≤ l.length := by
  intro tag
  induction tag with
  | nil =>
    intro l r h
    simp [stripPrefixCI] at h
    simp [h]
  | cons p ps ih =>
    intro l r h
    cases l with
    | nil => simp [stripPrefixCI] at h
    | cons c cs =>
      simp only [stripPrefixCI] at h
      by_cases hc : lowerChar c = lowerChar p
      · rw [if_pos hc] at h
        obtain ⟨h1, h2⟩ := ih h
        refine ⟨by simpa using h1, by simpa using h2⟩
      · rw [if_neg hc] at h
        cases h

theorem dropWhile_head_false {p : Char → Bool} :
    ∀ {l : Str} {d : Char} {ds : Str}, l.dropWhile p = d :: ds → p d = false := by
  intro l
  induction l with
  | nil => intro d ds h; cases h
  | cons c cs ih =>
    intro d ds h
    rw [List.dropWhile_cons] at h
    by_cases hc : p c = true
    · rw [if_pos hc] at h; exact ih h
    · rw [if_neg hc] at h
      injection h with h1 _
      rw [← h1]
      exact Bool.eq_false_iff.mpr hc

theorem tagMatchLen_spec {tag : Str} {c : Char} {cs : Str} {n : Nat}
    (h : tagMatchLen tag (c :: cs) = some n) :
    2 ≤ n ∧ cs[n - 2]? = some '>' := by
  simp only [tagMatchLen] at h
  by_cases hc : c = '<'
  case neg => rw [if_neg hc] at h; cases h
  rw [if_pos hc] at h
  cases hs : stripPrefixCI tag cs with
  | none => rw [hs] at h; cases h
  | some rest =>
    rw [hs] at h
    dsimp only [] at h
    cases hd : rest.dropWhile (fun x => x ≠ '>') with
    | nil => rw [hd] at h; cases h
    | cons d ds =>
      rw [hd] at h
      injection h with hn
      have hd' : d = '>' := by
        have := dropWhile_head_false hd
        simpa using this
      obtain ⟨hrest, hlen⟩ := stripPrefixCI_drop hs
      have hsplit : rest = rest.takeWhile (fun x => x ≠ '>') ++ (d :: ds) := by
        rw [← hd]
        exact (List.takeWhile_append_dropWhile _ rest).symm
      generalize hmid : rest.takeWhile (fun x => x ≠ '>') = mid at hn hsplit
      refine ⟨by omega, ?_⟩
      have hidx : n - 2 = tag.length + mid.length := by omega
      rw [hidx, ← List.getElem?_drop, ← hrest, hsplit,
        List.getElem?_append_right (le_refl _)]
      simp [hd']

theorem infix_cons_self {pat : Str} {c : Char} {l : Str} (h : pat <:+: l) :
    pat <:+: c :: l := by
  obtain ⟨s, t, rfl⟩ := h
  exact ⟨c :: s, t, rfl⟩

theorem infix_append_of_right {pat x y : Str} (h : pat <:+: y) : pat <:+: x ++ y := by
  obtain ⟨s, t, rfl⟩ := h
  exact ⟨x ++ s, t, by simp⟩

theorem presStep {c : Char} {cs out : Str}
    (hcs : ∀ pat : Str, '>' ∉ pat →
      ((pat <+: lowerStr cs → pat <+: lowerStr out) ∧
       (pat <:+: lowerStr cs → pat <:+: lowerStr out)))
    (pat : Str) (hpat : '>' ∉ pat) :
    ((pat <+: lowerStr (c :: cs) → pat <+: lowerStr (c :: out)) ∧
     (pat <:+: lowerStr (c :: cs) → pat <:+: lowerStr (c :: out))) := by
  have hl1 : lowerStr (c :: cs) = lowerChar c :: lowerStr cs := rfl
  have hl2 : lowerStr (c :: out) = lowerChar c :: lowerStr out := rfl
  have ppart : pat <+: lowerStr (c :: cs) → pat <+: lowerStr (c :: out) := by
    intro hpre
    cases pat with
    | nil => exact ⟨_, rfl⟩
    | cons q qs =>
      rw [hl1] at hpre
      rw [hl2]
      obtain ⟨hq, hqs⟩ := List.cons_prefix_cons.mp hpre
      exact List.cons_prefix_cons.mpr
        ⟨hq, (hcs qs (fun hm => hpat (List.mem_cons_of_mem _ hm))).1 hqs⟩
  refine ⟨ppart, ?_⟩
  intro hinf
  rw [hl1] at hinf
  rw [hl2]
  rcases List.infix_cons_iff.mp hinf with hpre | htail
  · have hp2 := ppart (by rw [hl1]; exact hpre)
    rw [hl2] at hp2
    obtain ⟨t, ht⟩ := hp2
    exact ⟨[], t, by simpa using ht⟩
  · exact infix_cons_self ((hcs pat hpat).2 htail)

theorem goIns_preserve (tag ins : Str) :
    ∀ l p, (p = 0 ∨ l[p - 1]? = some '>' ∨ l.length ≤ p - 1) →
      ∀ pat : Str, '>' ∉ pat →
        ((pat <+: lowerStr l → pat <+: lowerStr (goIns tag ins p l)) ∧
         (pat <:+: lowerStr l → pat <:+: lowerStr (goIns tag ins p l))) := by
  intro l
  induction l with
  | nil =>
    intro p hp pat hpat
    constructor
    · intro hpre
      have hp0 : pat = [] := by
        have h2 : pat <+: ([] : Str) := hpre
        simpa using h2
      rw [hp0]
      exact ⟨_, rfl⟩
    · intro hinf
      have hp0 : pat = [] := by
        have h2 : pat <:+: ([] : Str) := hinf
        simpa using h2
      rw [hp0]
      exact ⟨[], _, rfl⟩
  | cons c cs ih =>
    intro p hp pat hpat
    cases p with
    | zero =>
      cases hm : tagMatchLen tag (c :: cs) with
      | none =>
        have hout : goIns tag ins 0 (c :: cs) = c :: goIns tag ins 0 cs := by
          simp only [goIns, hm]
        rw [hout]
        exact presStep (fun q hq => ih 0 (Or.inl rfl) q hq) pat hpat
      | some n =>
        obtain ⟨hn2, hgt⟩ := tagMatchLen_spec hm
        have hout : goIns tag ins 0 (c :: cs) = c :: goIns tag ins (n - 1) cs := by
          simp only [goIns, hm]
          rw [if_neg (by omega)]
        rw [hout]
        have hinv : n - 1 = 0 ∨ cs[n - 1 - 1]? = some '>' ∨
            cs.length ≤ n - 1 - 1 := by
          right; left
          rw [show n - 1 - 1 = n - 2 by omega]
          exact hgt
        exact presStep (fun q hq => ih (n - 1) hinv q hq) pat hpat
    | succ p' =>
      cases p' with
      | zero =>
        have hout : goIns tag ins 1 (c :: cs) = c :: (ins ++ goIns tag ins 0 cs) := by
          simp [goIns]
        rw [hout]
        have hc : c = '>' := by
          rcases hp with hp | hp | hp
          · cases hp
          · simpa using hp
          · simp at hp
        constructor
        · intro hpre
          cases pat with
          | nil => exact ⟨_, rfl⟩
          | cons q qs =>
            obtain ⟨hq, _⟩ := List.cons_prefix_cons.mp hpre
            have hq' : q = '>' := by rw [hq, hc]; decide
            exact absurd (show ('>') ∈ q :: qs by
              rw [← hq']
              exact List.mem_cons_self q qs) hpat
        · intro hinf
          rcases List.infix_cons_iff.mp hinf with hpre | htail
          · cases pat with
            | nil => exact ⟨[], _, rfl⟩
            | cons q qs =>
              obtain ⟨hq, _⟩ := List.cons_prefix_cons.mp hpre
              have hq' : q = '>' := by rw [hq, hc]; decide
              exact absurd (show ('>') ∈ q :: qs by
                rw [← hq']
                exact List.mem_cons_self q qs) hpat
          · have h2 := (ih 0 (Or.inl rfl) pat hpat).2 htail
            have h3 : pat <:+: lowerStr (ins ++ goIns tag ins 0 cs) := by
              rw [lowerStr_append]
              exact infix_append_of_right h2
            exact infix_cons_self h3
      | succ p'' =>
        have hout : goIns tag ins (p'' + 2) (c :: cs) =
            c :: goIns tag ins (p'' + 1) cs := by
          simp only [goIns]
          rw [if_neg (by omega)]
        rw [hout]
        have hinv : p'' + 1 = 0 ∨ cs[p'' + 1 - 1]? = some '>' ∨
            cs.length ≤ p'' + 1 - 1 := by
          rcases hp with hp | hp | hp
          · cases hp
          · right; left
            simpa using hp
          · right; right
            simpa using hp
        exact presStep (fun q hq => ih (p'' + 1) hinv q hq) pat hpat

theorem scriptStep_keeps_base (html : Str)
    (h : containsS (lowerStr html) (str "<base") = true) :
    containsS (lowerStr (scriptStep html)) (str "<base") = true := by
  unfold scriptStep
  by_cases h1 : containsS (lowerStr html) (str "<head>") = true
  · rw [if_pos h1]
    rw [containsS_spec] at h ⊢
    exact (goIns_preserve _ _ html 0 (Or.inl rfl) _ (by decide)).2 h
  · rw [if_neg h1]
    by_cases h2 : containsS (lowerStr html) (str "<html>") = true
    · rw [if_pos h2]
      rw [containsS_spec] at h ⊢
      exact (goIns_preserve _ _ html 0 (Or.inl rfl) _ (by decide)).2 h
    · rw [if_neg h2]
      exact h

/-- C8 (corrected): re-running the rewrite cannot inject a second base tag:
whenever the input already contains `<base` (case-insensitively) — as every
rewrite output that received a base tag does — the whole base-injection step
is skipped, and the rewrite runs the no-base-injection pipeline. -/
theorem rewrite_no_second_base (html b t : Str)
    (hyp : containsS (lowerStr html) (str "<base") = true) :
    rewrite_html_content html b t = rewriteNoBase html b := by
  unfold rewrite_html_content rewriteNoBase
  have hb := scriptStep_keeps_base html hyp
  cases hpb : pyUrlparse b [] with
  | error e => rfl
  | ok pb =>
    dsimp only []
    rw [baseStep_skip _ _ hb]

theorem rewrite_no_second_base_witness :
    containsS (lowerStr (str "<base>")) (str "<base") = true ∧
    rewrite_html_content (str "<base>") (str "https://example.com/") [] =
      rewriteNoBase (str "<base>") (str "https://example.com/") :=
  ⟨by decide, rewrite_no_second_base _ _ _ (by decide)⟩

/-- C8 counterexample: the bridge-script half of the claim fails.  The
rewrite output still contains a literal `<head>` tag, so a second rewrite
matches it again and injects the bridge script a second time: on
`<head></head><base x>` the first rewrite yields one script copy right
after `<head>`, the second rewrite yields two copies, and the doubled
output contains at least two occurrences of the script while the original
contained none. -/
theorem rewrite_double_script_counterexample :
    rewrite_html_content (str "<head></head><base x>")
        (str "https://example.com/") [] =
      str "<head>" ++ (postmessage_script ++ str "</head><base x>") ∧
    rewrite_html_content
        (str "<head>" ++ (postmessage_script ++ str "</head><base x>"))
        (str "https://example.com/") [] =
      str "<head>" ++ (postmessage_script ++
        (postmessage_script ++ str "</head><base x>")) ∧
    countOccur postmessage_script (str "<head></head><base x>") = 0 ∧
    2 ≤ countOccur postmessage_script
        (str "<head>" ++ (postmessage_script ++
          (postmessage_script ++ str "</head><base x>"))) := by
  refine ⟨rewrite_once_eq, rewrite_twice_eq, by decide, ?_⟩
  cases hS : postmessage_script with
  | nil => exact absurd hS (by decide)
  | cons c t =>
    have g1 := countOccur_append_ge (c :: t) (str "<head>")
      ((c :: t) ++ ((c :: t) ++ str "</head><base x>"))
    have g2 := countOccur_append_ge (c :: t) (c :: t)
      ((c :: t) ++ str "</head><base x>")
    have g4 : 1 ≤ countOccur (c :: t) (c :: t) := by
      have h5 := countOccur_self_le c t []
      rwa [List.append_nil] at h5
    have g5 := countOccur_self_le c t (str "</head><base x>")
    omega

/-- C3 (code bug): the rewrite is total (the `except` handler catches every
internal error) but it is not all-or-nothing: the handler returns the
rebound local `html`, so when `urljoin` raises inside the attribute pass the
function returns the script-injected, attribute-unrewritten intermediate
string — a partially rewritten result, not the original input the spec
promises.  Concretely, on `<head></head><base x><a href="http://[">` the
attribute pass fails with `Invalid IPv6 URL`, yet the output is the
script-injected string, different from the input. -/
theorem rewrite_partial_on_error :
    subAttrUrls (str "https://example.com/")
        (str "<head>" ++ (postmessage_script ++
          str "</head><base x><a href=\"http://[\">")) =
      .error (str "Invalid IPv6 URL") ∧
    rewrite_html_content (str "<head></head><base x><a href=\"http://[\">")
        (str "https://example.com/") [] =
      str "<head>" ++ (postmessage_script ++
        str "</head><base x><a href=\"http://[\">") ∧
    str "<head>" ++ (postmessage_script ++
        str "</head><base x><a href=\"http://[\">") ≠
      str "<head></head><base x><a href=\"http://[\">" := by
  have a0 : goAttr (str "https://example.com/") 0
      (str "</head><base x><a href=\"http://[\">") =
      .error (str "Invalid IPv6 URL") := by decide
  have a1 := passAttrE (str "https://example.com/") postmessage_script
    script_attrClean _ _ a0
  have a2 := passAttrE (str "https://example.com/") (str "<head>")
    (by decide) _ _ a1
  have hscript : scriptStep (str "<head></head><base x><a href=\"http://[\">") =
      str "<head>" ++ (postmessage_script ++
        str "</head><base x><a href=\"http://[\">") := by
    have hc : containsS
        (lowerStr (str "<head></head><base x><a href=\"http://[\">"))
        (str "<head>") = true := by decide
    have hsplit : (str "<head></head><base x><a href=\"http://[\">" : Str) =
        str "<head>" ++ str "</head><base x><a href=\"http://[\">" := by decide
    simp only [scriptStep, hc, if_true, subTagIns]
    rw [hsplit, goIns_head_start, tagClean_goIns_nil _ _ _ (by decide)]
  refine ⟨by simp only [subAttrUrls]; exact a2, ?_, by decide⟩
  unfold rewrite_html_content
  rw [exampleParse]
  dsimp only []
  rw [hscript, baseStep_skip _ _ (by
    rw [lowerStr_append]
    apply containsS_append_right
    rw [lowerStr_append]
    exact containsS_append_right _ _ _ (by decide))]
  simp only [subAttrUrls]
  rw [a2]

/-- C9: on HTML that contains neither `<head>` nor `<html>` literally
(case-insensitively), both injection steps are skipped and the rewrite runs
only the src/href and CSS url() substitutions. -/
theorem rewrite_no_injection_without_tags (html b t : Str)
    (h1 : containsS (lowerStr html) (str "<head>") = false)
    (h2 : containsS (lowerStr html) (str "<html>") = false) :
    rewrite_html_content html b t = rewriteNoInj html b := by
  unfold rewrite_html_content rewriteNoInj
  have hs : scriptStep html = html := by
    unfold scriptStep
    rw [if_neg (by simp [h1]), if_neg (by simp [h2])]
  cases hpb : pyUrlparse b [] with
  | error e => rfl
  | ok pb =>
    dsimp only []
    have hbb : baseStep (pb.scheme ++ str "://" ++ pb.netloc) html = html := by
      simp [baseStep, h1]
    rw [hs, hbb]

theorem rewrite_no_injection_without_tags_witness :
    containsS (lowerStr (str "<p>")) (str "<head>") = false ∧
    containsS (lowerStr (str "<p>")) (str "<html>") = false ∧
    rewrite_html_content (str "<p>") (str "https://example.com/") [] =
      rewriteNoInj (str "<p>") (str "https://example.com/") :=
  ⟨by decide, by decide,
    rewrite_no_injection_without_tags _ _ _ (by decide) (by decide)⟩

/-- C4 (corrected): the `/resource` endpoint applies no rewriting at all:
for every content type — CSS included — the returned bytes are exactly the
decompressed upstream bytes, and the CSS body returned for `text/css` is
byte-identical to the body returned for any other type. -/
theorem resource_no_css_rewrite (k : Codecs) (raw : Bytes) (ce : Str)
    (ct : Option Str) :
    (proxy_resource_response k raw ce ct).fst = proxyDecompressed k raw ce ∧
    (proxy_resource_response k raw ce (some (str "text/css"))).fst =
      (proxy_resource_response k raw ce ct).fst :=
  ⟨rfl, rfl⟩

/-- C4 counterexample: a CSS body travels through `/resource` byte-identical,
even though the CSS url() rewrite that the claim promises would have changed
it (it lives only in the HTML pipeline, app.py lines 360-372). -/
theorem resource_css_unrewritten_counterexample :
    (proxy_resource_response failCodecs
        (strToBytes (str "body\x7bbackground:url(x)\x7d")) []
        (some (str "text/css"))).fst =
      strToBytes (str "body\x7bbackground:url(x)\x7d") ∧
    subCssUrls (str "https://example.com/a") (str "body\x7bbackground:url(x)\x7d") =
      .ok (str "body\x7bbackground:url(\"https://example.com/x\")\x7d") ∧
    (proxy_resource_response failCodecs
        (strToBytes (str "body\x7bbackground:url(x)\x7d")) []
        (some (str "text/css"))).fst ≠
      strToBytes (str "body\x7bbackground:url(\"https://example.com/x\")\x7d") :=
  ⟨rfl, by decide, by decide⟩
